import Mathlib

/-!
Verification of the Scoring-Engine repository against its specification.

Shallow embedding conventions:
* Python numbers are modelled by `ℚ` (exact real arithmetic).  Where a claim
  depends on IEEE-754 binary64 rounding, an explicit correctly-rounded
  binary64 model (`Fp64` namespace) is used instead.
* JSON / Python dict values are modelled by the inductive type `JValue`;
  Python truthiness, `dict.get`, `float(...)` coercion and `or`-chains are
  modelled explicitly.
* Fallible Python code (uncaught exceptions) is modelled with `Option` or
  `Except`.
-/

/-- `np.clip(x, lo, hi)` on rationals. -/
def clipQ (x lo hi : ℚ) : ℚ := min (max x lo) hi

/-! ### String primitives

The Python string operations the repository uses, implemented by structural
recursion over the character list so that concrete evaluations reduce. -/

namespace PyStr

/-- Replacement loop for `str.replace`, structurally recursive on a fuel
argument (the list shrinks by at least one character per step, so any fuel
at least the list length is exact). -/
def replaceLAux (pat rep : List Char) : ℕ → List Char → List Char
  | 0, l => l
  | _ + 1, [] => []
  | fuel + 1, c :: rest =>
      match pat with
      | [] => c :: rest
      | p :: ps =>
          if (p :: ps).isPrefixOf (c :: rest) then
            rep ++ replaceLAux (p :: ps) rep fuel (rest.drop ps.length)
          else
            c :: replaceLAux (p :: ps) rep fuel rest

/-- Replace every occurrence of the nonempty pattern `pat` by `rep`
(Python `str.replace(pat, rep)`; the empty pattern never occurs in this
repository). -/
def replaceL (pat rep l : List Char) : List Char :=
  replaceLAux pat rep l.length l

/-- Python `str.strip()` (whitespace at both ends). -/
def strip (s : String) : String :=
  ⟨((s.data.dropWhile Char.isWhitespace).reverse.dropWhile Char.isWhitespace).reverse⟩

/-- Python `str.upper()` for the ASCII data used here. -/
def upper (s : String) : String := ⟨s.data.map Char.toUpper⟩

/-- Python `str.endswith(pat)`. -/
def endsW (s pat : String) : Bool := pat.data.isSuffixOf s.data

/-- Python `pat in s` for a single character. -/
def hasChar (s : String) (c : Char) : Bool := s.data.contains c

/-- Python `str.replace(pat, rep)`. -/
def replace (s pat rep : String) : String := ⟨replaceL pat.data rep.data s.data⟩

/-- Python `len(s)`. -/
def strLen (s : String) : ℕ := s.data.length

/-- String concatenation with reducible data. -/
def cat (s t : String) : String := ⟨s.data ++ t.data⟩

end PyStr

/-- Round half to even (Python `round` to an integer, exact model). -/
def rhez (q : ℚ) : ℤ :=
  let f : ℤ := ⌊q⌋
  let r : ℚ := q - f
  if r < 1/2 then f
  else if 1/2 < r then f + 1
  else if f % 2 = 0 then f else f + 1

/-- Python `round(x, 4)`: round half to even at 4 decimal places (exact model). -/
def round4 (q : ℚ) : ℚ := (rhez (q * 10000) : ℚ) / 10000

/-- `np.mean` over a list of rationals (callers only use nonempty lists). -/
def listMean (l : List ℚ) : ℚ := l.sum / (l.length : ℚ)

/-- JSON values / Python objects as passed around by the repository. -/
inductive JValue where
  | null : JValue
  | bool : Bool → JValue
  | num : ℚ → JValue
  | str : String → JValue
  | arr : List JValue → JValue
  | obj : List (String × JValue) → JValue

namespace JValue

/-- First binding of a key in an object's field list (Python dict lookup;
keys of the dicts built by this repository are unique). -/
def lookup : List (String × JValue) → String → Option JValue
  | [], _ => none
  | (k, v) :: rest, key => if k = key then some v else lookup rest key

/-- Python truthiness of a value. -/
def truthy : JValue → Bool
  | .null => false
  | .bool b => b
  | .num q => q ≠ 0
  | .str s => s ≠ ""
  | .arr l => !l.isEmpty
  | .obj l => !l.isEmpty

/-- Python `a or b`. -/
def pyOr (a b : JValue) : JValue := if a.truthy then a else b

/-- Python `d.get(k)` (absent key yields `None`). -/
def get1 (o : List (String × JValue)) (k : String) : JValue :=
  (lookup o k).getD .null

/-- Python `d.get(k, default)`. -/
def getD (o : List (String × JValue)) (k : String) (d : JValue) : JValue :=
  (lookup o k).getD d

end JValue

/-- Value of a nonempty all-digit character list, most significant first. -/
def digitsToNat (cs : List Char) : ℕ :=
  cs.foldl (fun a c => 10 * a + (c.toNat - 48)) 0

def allDigits (cs : List Char) : Bool := !cs.isEmpty && cs.all Char.isDigit

/-- Parse an optionally signed nonempty digit string to an integer. -/
def parseSignedInt? (cs : List Char) : Option ℤ :=
  match cs with
  | '+' :: rest => if allDigits rest then some (digitsToNat rest : ℤ) else none
  | '-' :: rest => if allDigits rest then some (-(digitsToNat rest : ℤ)) else none
  | _ => if allDigits cs then some (digitsToNat cs : ℤ) else none

/-- Split a character list at the first occurrence of any of the given
separator characters, returning the part before, the separator found, and
the part after. -/
def splitAtFirst (seps : List Char) : List Char → (List Char × Option Char × List Char)
  | [] => ([], none, [])
  | c :: rest =>
      if seps.contains c then ([], some c, rest)
      else
        let r := splitAtFirst seps rest
        (c :: r.1, r.2.1, r.2.2)

/-- Mantissa (`digits`, `digits.digits`, `digits.`, `.digits`) to a rational. -/
def parseMantissa? (cs : List Char) : Option ℚ :=
  let p := splitAtFirst ['.'] cs
  let intPart := p.1
  let fracPart := p.2.2
  match p.2.1 with
  | none => if allDigits intPart then some (digitsToNat intPart : ℚ) else none
  | some _ =>
      if intPart.isEmpty && fracPart.isEmpty then none
      else if (intPart.isEmpty || allDigits intPart)
           && (fracPart.isEmpty || allDigits fracPart) then
        some ((digitsToNat intPart : ℚ)
          + (digitsToNat fracPart : ℚ) / (10 : ℚ) ^ fracPart.length)
      else none

/-- Model of Python `float(s)` on a string: optional sign, decimal mantissa,
optional exponent, surrounding whitespace ignored.  (The special forms
`inf` / `nan` / digit underscores are not produced by this repository's
inputs and are modelled as unparseable.) -/
def parseFloat? (s : String) : Option ℚ :=
  let cs := (PyStr.strip s).data
  let (sgn, body) : ℚ × List Char :=
    match cs with
    | '+' :: rest => (1, rest)
    | '-' :: rest => (-1, rest)
    | _ => (1, cs)
  let e := splitAtFirst ['e', 'E'] body
  match e.2.1 with
  | none => (parseMantissa? body).map (fun m => sgn * m)
  | some _ =>
      match parseMantissa? e.1, parseSignedInt? e.2.2 with
      | some m, some ex => some (sgn * m * (10 : ℚ) ^ ex)
      | _, _ => none

/-- Model of Python `float(x)` on an arbitrary value (`none` = `TypeError`
or `ValueError`). -/
def pyFloat? : JValue → Option ℚ
  | .num q => some q
  | .bool b => some (if b then 1 else 0)
  | .str s => parseFloat? s
  | _ => none

/-- Decimal digits of a natural number with a fuel argument (any fuel
bounding the digit count is exact). -/
def natDigitsAux : ℕ → ℕ → List Char
  | 0, _ => []
  | fuel + 1, n =>
      if n < 10 then [Char.ofNat (48 + n)]
      else natDigitsAux fuel (n / 10) ++ [Char.ofNat (48 + n % 10)]

/-- Decimal digit characters of a natural number, most significant first. -/
def natDigits (n : ℕ) : List Char := natDigitsAux (n + 1) n

/-- Decimal string of an integer. -/
def intToStr (i : ℤ) : String :=
  if i < 0 then ⟨'-' :: natDigits i.natAbs⟩ else ⟨natDigits i.natAbs⟩

/-- Model of Python `str(x)` for the scalar values used as user ids.
(Container and non-integer float formatting is abstracted; the repository
only stringifies string or integer user ids.) -/
def pyStr : JValue → String
  | .null => "None"
  | .bool b => if b then "True" else "False"
  | .num q => if q.den = 1 then intToStr q.num
              else PyStr.cat (PyStr.cat (intToStr q.num) "/") (intToStr q.den)
  | .str s => s
  | .arr _ => "[...]"
  | .obj _ => "\x7b...\x7d"

/-! ## data_loader.py -/

namespace DataLoader

open JValue

/-- `_safe_float` from data_loader.py: `None` and unconvertible values give
the default; a `%`-suffixed string is parsed with all `%` removed and
divided by 100. -/
def safe_float (x : JValue) (default : Option ℚ) : Option ℚ :=
  match x with
  | .null => default
  | .str s =>
      let t := PyStr.strip s
      if PyStr.endsW t "%" then
        match parseFloat? (PyStr.replace t "%" "") with
        | some v => some (v / 100)
        | none => default
      else
        match parseFloat? s with
        | some v => some v
        | none => default
  | v =>
      match pyFloat? v with
      | some q => some q
      | none => default

/-- Python `int(q)` for a finite float value: truncation toward zero. -/
def truncQ (q : ℚ) : ℤ := if 0 ≤ q then ⌊q⌋ else ⌈q⌉

/-- `_safe_int` from data_loader.py: `int(float(x))`, default on failure. -/
def safe_int (x : JValue) (default : Option ℤ) : Option ℤ :=
  match x with
  | .null => default
  | v =>
      match pyFloat? v with
      | some q => some (truncQ q)
      | none => default

/-- `_normalize_asset` from data_loader.py, on an actual string. -/
def normalize_asset_str (asset : String) : String :=
  let a := PyStr.upper (PyStr.strip asset)
  if a = "" then ""
  else if PyStr.hasChar a '=' || PyStr.hasChar a '^' || PyStr.endsW a "=F" then a
  else if a = "BTC" || a = "ETH" || a = "SOL" then PyStr.cat a "USDT"
  else if PyStr.endsW a "USDT" then a
  else a

/-- `_normalize_asset(p.get("asset", ""))`: a falsy non-string argument is
turned into `""` by `(asset or "")`; a truthy non-string raises
(`none`). -/
def normalize_asset (x : JValue) : Option String :=
  match x with
  | .str s => some (normalize_asset_str s)
  | v => if v.truthy then none else some ""

/-- `_normalize_direction` from data_loader.py, on an actual string. -/
def normalize_direction_str (direction : String) : String :=
  let d := PyStr.upper (PyStr.strip direction)
  if d = "BUY" || d = "LONG" then "BUY"
  else if d = "SELL" || d = "SHORT" then "SELL"
  else "BUY"

/-- `_normalize_direction(p.get("direction", "BUY"))` with Python
`(direction or "")` semantics on non-strings. -/
def normalize_direction (x : JValue) : Option String :=
  match x with
  | .str s => some (normalize_direction_str s)
  | v => if v.truthy then none else some "BUY"

/-- `_clamp01` from data_loader.py. -/
def clamp01 (x : Option ℚ) (default : ℚ) : ℚ :=
  match x with
  | none => default
  | some v => if v < 0 then 0 else if v > 1 then 1 else v

/-- `_normalize_move_pct` from data_loader.py. -/
def normalize_move_pct (move_pct : JValue) : Option ℚ :=
  match safe_float move_pct none with
  | none => none
  | some v0 =>
      let v := |v0|
      if v > 1 then some (v / 100)
      else if v > 1/5 then some (v / 100)
      else some v

/-- The normalized prediction dict built by `_normalize_prediction`
(optional fields kept as `Option`). -/
structure NormPred where
  user_id : JValue
  submission_id : JValue
  timestamp : JValue
  asset : String
  direction : String
  confidence : ℚ
  horizon_hours : ℤ
  entry_price : Option ℚ
  move_pct : Option ℚ

/-- `_normalize_prediction` from data_loader.py; `now` is the string
`_now_iso_utc()` would produce; `none` models an uncaught exception. -/
def normalize_prediction (now : String) (p : List (String × JValue)) : Option NormPred :=
  let user_id := pyOr (get1 p "user_id") (pyOr (get1 p "user") (get1 p "uid"))
  let submission_id := pyOr (get1 p "submission_id") (get1 p "id")
  let ts := pyOr (get1 p "timestamp") (pyOr (get1 p "time") (.str now))
  match normalize_asset (getD p "asset" (.str "")),
        normalize_direction (getD p "direction" (.str "BUY")) with
  | some asset, some direction =>
      let conf :=
        match get1 p "confidence" with
        | .null => get1 p "user_confidence"
        | c => c
      let confidence := clamp01 (safe_float conf (some (1/2))) (1/2)
      let h0 := safe_int (get1 p "horizon_hours") (some 1)
      let h1 : ℤ := match h0 with
        | none => 1
        | some n => if n = 0 then 1 else n
      let horizon_hours := max 1 (min h1 24)
      let entry_price := safe_float (get1 p "entry_price") none
      let move_pct := normalize_move_pct (get1 p "move_pct")
      some ⟨user_id, submission_id, ts, asset, direction, confidence,
            horizon_hours, entry_price, move_pct⟩
  | _, _ => none

/-- Error kinds raised by `load_predictions_json`. -/
inductive LoadErr where
  | notFound : LoadErr
  | invalidInput : LoadErr
  | typeError : LoadErr
deriving DecidableEq

/-- The enumerated normalize/validate/append loop of
`load_predictions_json` (index `i` is the position in the raw item list,
including skipped items). -/
def processItems (now : String) : ℕ → List JValue → Except LoadErr (List NormPred)
  | _, [] => .ok []
  | i, x :: xs =>
      match x with
      | .obj o =>
          match normalize_prediction now o with
          | none => .error .typeError
          | some pred =>
              if pred.asset = "" || !pred.user_id.truthy then
                processItems now (i + 1) xs
              else
                let pred' :=
                  if pred.submission_id.truthy then pred
                  else ⟨pred.user_id,
                        .str (PyStr.cat (PyStr.cat (pyStr pred.user_id) "-") (intToStr i)),
                        pred.timestamp, pred.asset, pred.direction, pred.confidence,
                        pred.horizon_hours, pred.entry_price, pred.move_pct⟩
                match processItems now (i + 1) xs with
                | .ok rest => .ok (pred' :: rest)
                | .error e => .error e
      | _ => processItems now (i + 1) xs

/-- The `items` selection of `load_predictions_json`: a dict with a
`"predictions"` key contributes that value, anything else is taken
whole. -/
def itemsOf (raw : JValue) : JValue :=
  match raw with
  | .obj o =>
      match lookup o "predictions" with
      | some v => v
      | none => raw
  | _ => raw

/-- `load_predictions_json` from data_loader.py.  The file system is
modelled by the argument: `none` = file absent, `some raw` = parsed JSON
contents. -/
def load_predictions_json (now : String) (file : Option JValue) :
    Except LoadErr (List NormPred) :=
  match file with
  | none => .error .notFound
  | some raw =>
      match itemsOf raw with
      | .arr l => processItems now 0 l
      | _ => .error .invalidInput

end DataLoader

/-! ## asset_registry.py -/

namespace AssetRegistry

open JValue

/-- One entry of `ASSET_REGISTRY` (the Python dicts all carry exactly these
five keys). -/
structure AssetInfo where
  canonical : String
  type : String
  yahoo : Option String
  finnhub : Option String
  fred : Option String
deriving DecidableEq

/-- `ASSET_REGISTRY` from asset_registry.py. -/
def ASSET_REGISTRY : List (String × AssetInfo) :=
  [ ("BTC", ⟨"BTC", "crypto", some "BTC-USD", some "BINANCE:BTCUSDT", none⟩),
    ("ETH", ⟨"ETH", "crypto", some "ETH-USD", some "BINANCE:ETHUSDT", none⟩),
    ("SOL", ⟨"SOL", "crypto", some "SOL-USD", some "BINANCE:SOLUSDT", none⟩),
    ("EURUSD", ⟨"EURUSD", "forex", some "EURUSD=X", some "OANDA:EUR_USD", some "DEXUSEU"⟩),
    ("GBPUSD", ⟨"GBPUSD", "forex", some "GBPUSD=X", some "OANDA:GBP_USD", some "DEXUSUK"⟩),
    ("USDJPY", ⟨"USDJPY", "forex", some "USDJPY=X", some "OANDA:USD_JPY", some "DEXJPUS"⟩),
    ("XAUUSD", ⟨"XAUUSD", "metal", some "GC=F", some "OANDA:XAU_USD", some "GOLDAMGBD228NLBM"⟩),
    ("XAGUSD", ⟨"XAGUSD", "metal", some "SI=F", some "OANDA:XAG_USD", none⟩),
    ("SP500", ⟨"SP500", "index", some "^GSPC", some "SPY", none⟩),
    ("NASDAQ", ⟨"NASDAQ", "index", some "^IXIC", some "QQQ", none⟩),
    ("DAX", ⟨"DAX", "index", some "^GDAXI", some "EXS1.DE", none⟩),
    ("NIKKEI", ⟨"NIKKEI", "index", some "^N225", some "EWJ", none⟩),
    ("AAPL", ⟨"AAPL", "stock", some "AAPL", some "AAPL", none⟩),
    ("NVDA", ⟨"NVDA", "stock", some "NVDA", some "NVDA", none⟩),
    ("TSLA", ⟨"TSLA", "stock", some "TSLA", some "TSLA", none⟩),
    ("MSFT", ⟨"MSFT", "stock", some "MSFT", some "MSFT", none⟩),
    ("AMZN", ⟨"AMZN", "stock", some "AMZN", some "AMZN", none⟩) ]

/-- `ALIASES` from asset_registry.py. -/
def ALIASES : List (String × String) :=
  [ ("BTCUSDT", "BTC"), ("ETHUSDT", "ETH"), ("SOLUSDT", "SOL"),
    ("BTC-USD", "BTC"), ("ETH-USD", "ETH"), ("SOL-USD", "SOL"),
    ("EURUSD=X", "EURUSD"), ("GBPUSD=X", "GBPUSD"), ("USDJPY=X", "USDJPY"),
    ("^GSPC", "SP500"), ("^SPX", "SP500"), ("^IXIC", "NASDAQ"),
    ("^GDAXI", "DAX"), ("^N225", "NIKKEI"),
    ("GC=F", "XAUUSD"), ("XAU/USD", "XAUUSD"), ("XAU-USD", "XAUUSD"),
    ("SI=F", "XAGUSD"), ("XAG/USD", "XAGUSD"), ("XAG-USD", "XAGUSD") ]

/-- First-match lookup in an association list with string keys. -/
def alistFind (l : List (String × α)) (key : String) : Option α :=
  match l with
  | [] => none
  | (k, v) :: rest => if k = key then some v else alistFind rest key

/-- `_clean` from asset_registry.py. -/
def clean (s : String) : String :=
  PyStr.replace (PyStr.upper (PyStr.strip s)) " " ""

/-- Python `str.isalpha()` for the ASCII tokens used here (empty string is
not alphabetic). -/
def pyIsAlpha (s : String) : Bool :=
  !s.data.isEmpty && s.data.all Char.isAlpha

/-- `resolve_asset` from asset_registry.py; `none` models the uncaught
exception raised when a truthy non-string asset value is cleaned. -/
def resolve_asset (user_input : List (String × JValue)) :
    Option (String × Option AssetInfo) :=
  let rawv := pyOr (get1 user_input "asset")
      (pyOr (get1 user_input "symbol")
        (pyOr (get1 user_input "ticker") (.str "")))
  match rawv with
  | .str raw =>
      let a0 := clean raw
      let a := PyStr.replace (PyStr.replace a0 "/" "") "-" ""
      let raw_up := PyStr.upper (PyStr.strip raw)
      let a_key :=
        match alistFind ALIASES raw_up with
        | some k => k
        | none =>
            match alistFind ALIASES a with
            | some k => k
            | none => a
      let a_key :=
        if PyStr.endsW a_key "USDT" && (alistFind ASSET_REGISTRY a_key).isNone then
          let base := PyStr.replace a_key "USDT" ""
          match alistFind ASSET_REGISTRY base with
          | some info => if info.type = "crypto" then base else a_key
          | none => a_key
        else a_key
      match alistFind ASSET_REGISTRY a_key with
      | some info => some (a_key, some info)
      | none =>
          if pyIsAlpha a_key && 1 ≤ PyStr.strLen a_key && PyStr.strLen a_key ≤ 5 then
            some (a_key, some ⟨a_key, "stock", some a_key, some a_key, none⟩)
          else
            some (a_key, none)
  | v => if v.truthy then none else some ("", none)

end AssetRegistry

/-! ## entry_quality.py -/

namespace EntryQuality

/-- `_norm01` from entry_quality.py. -/
def norm01 (x : ℚ) : ℚ := clipQ x 0 1

/-- `compute_entry_target_score` from entry_quality.py (exact real
arithmetic). -/
def compute_entry_target_score (p_touch_entry p_reach_target entry_precision
    target_precision move_realism liquidity : ℚ) : ℚ :=
  let p_touch_entry := norm01 p_touch_entry
  let p_reach_target := norm01 p_reach_target
  let entry_precision := norm01 entry_precision
  let target_precision := norm01 target_precision
  let move_realism := norm01 move_realism
  let liquidity := norm01 liquidity
  let score :=
    0.35 * p_touch_entry +
    0.30 * p_reach_target +
    0.12 * entry_precision +
    0.06 * target_precision +
    0.12 * move_realism +
    0.05 * liquidity
  norm01 score

end EntryQuality

/-! ## Correctly rounded IEEE-754 binary64 arithmetic (used where a claim
depends on the floating-point behaviour of the source; the magnitudes
involved are far from the subnormal and overflow ranges, where this model
is exact). -/

namespace Fp64

/-- Floor base-2 logarithm of a natural number, with fuel (any fuel at
least the number itself is exact, since the argument halves each step). -/
def log2Aux : ℕ → ℕ → ℕ
  | 0, _ => 0
  | fuel + 1, n => if 2 ≤ n then log2Aux fuel (n / 2) + 1 else 0

/-- Floor base-2 logarithm of a positive natural number. -/
def log2F (n : ℕ) : ℕ := log2Aux n n

/-- `⌊log2 q⌋` for a positive rational. -/
def ilog2 (q : ℚ) : ℤ :=
  let a : ℤ := log2F q.num.natAbs
  let b : ℤ := log2F q.den
  let k := a - b
  if |q| < (2 : ℚ) ^ k then k - 1 else k

/-- Round a real (rational) value to the nearest binary64 value, ties to
even (normal range). -/
def fl (q : ℚ) : ℚ :=
  if q = 0 then 0
  else
    let s : ℚ := if q < 0 then -1 else 1
    let aq := |q|
    let e : ℤ := ilog2 aq - 52
    s * ((rhez (aq * (2 : ℚ) ^ (-e)) : ℚ) * (2 : ℚ) ^ e)

/-- binary64 addition. -/
def dadd (a b : ℚ) : ℚ := fl (a + b)

/-- binary64 multiplication. -/
def dmul (a b : ℚ) : ℚ := fl (a * b)

/-- Value of a decimal literal in a Python source file (nearest double). -/
def dlit (q : ℚ) : ℚ := fl q

end Fp64

namespace EntryQuality

/-- `compute_entry_target_score` under the source's actual binary64
arithmetic (clamps are exact comparisons; the weighted sum is one product
per term and left-associated additions, each correctly rounded). -/
def compute_entry_target_score_fp (p_touch_entry p_reach_target entry_precision
    target_precision move_realism liquidity : ℚ) : ℚ :=
  let p_touch_entry := norm01 p_touch_entry
  let p_reach_target := norm01 p_reach_target
  let entry_precision := norm01 entry_precision
  let target_precision := norm01 target_precision
  let move_realism := norm01 move_realism
  let liquidity := norm01 liquidity
  let score :=
    Fp64.dadd (Fp64.dadd (Fp64.dadd (Fp64.dadd (Fp64.dadd
      (Fp64.dmul (Fp64.dlit 0.35) p_touch_entry)
      (Fp64.dmul (Fp64.dlit 0.30) p_reach_target))
      (Fp64.dmul (Fp64.dlit 0.12) entry_precision))
      (Fp64.dmul (Fp64.dlit 0.06) target_precision))
      (Fp64.dmul (Fp64.dlit 0.12) move_realism))
      (Fp64.dmul (Fp64.dlit 0.05) liquidity)
  norm01 score

end EntryQuality

/-! ## scoring.py -/

namespace Scoring

/-- `_normalize_direction` from scoring.py (the long/short variant). -/
def normalize_direction (direction : String) : String :=
  let d := PyStr.upper (PyStr.strip direction)
  if d = "BUY" || d = "LONG" then "long"
  else if d = "SELL" || d = "SHORT" then "short"
  else "long"

/-- `_technical_alignment` from scoring.py. -/
def technical_alignment (direction : String) (technical_bias : ℚ) : ℚ :=
  let b := clipQ technical_bias (-1) 1
  let score := if direction = "long" then 1/2 + 1/2 * b else 1/2 + 1/2 * (-b)
  clipQ score 0 1

/-- The label assignment of scoring.py lines 207-213. -/
def reliability_label (final_reliability_score : ℚ) : String :=
  if final_reliability_score < 0.4 then "low"
  else if final_reliability_score < 0.7 then "moderate"
  else "high"

/-- The fields of the row returned by `score_prediction` that the final
scoring layer (scoring.py lines 120-213) determines. -/
structure ScoredRow where
  technical_alignment : ℚ
  fundamental_score : ℚ
  momentum_alignment : ℚ
  hourly_time_consistency : ℚ
  structural_reliability : ℚ
  confidence_reliability_score : ℚ
  entry_score : ℚ
  final_reliability_score : ℚ
  reliability : String

/-- The deterministic core of `score_prediction`: everything from the
sub-engine outputs to the returned scores and label.  `momentum_alignment`
is the value `_momentum_alignment` produced (it is transcendental:
`0.5 ± 0.5·(1 − exp(−20·|wm|))`), `fundamental_raw` the score extracted
from the fundamentals engine, `entry_score` the entry-quality layer's
output (0.5 when market data or the entry price is missing). -/
def score_prediction_core (direction : String) (user_confidence technical_bias
    fundamental_raw momentum_alignment m5h m10h entry_score : ℚ) : ScoredRow :=
  let direction_norm := normalize_direction direction
  let ta := technical_alignment direction_norm technical_bias
  let fundamental_score := clipQ fundamental_raw 0 1
  let hourly_time_consistency := clipQ (0.6 * |m5h| + 0.4 * |m10h|) 0 1
  let structural_reliability :=
    clipQ (0.45 * momentum_alignment + 0.35 * ta +
           0.15 * fundamental_score + 0.05 * hourly_time_consistency) 0 1
  let confidence_reliability_score := clipQ (user_confidence * structural_reliability) 0 1
  let final_reliability_score :=
    clipQ (confidence_reliability_score * (0.7 + 0.3 * entry_score)) 0 1
  let reliability := reliability_label final_reliability_score
  ⟨ta, fundamental_score, momentum_alignment, hourly_time_consistency,
   structural_reliability, confidence_reliability_score, entry_score,
   final_reliability_score, reliability⟩

end Scoring

/-! ## ranking.py -/

namespace Ranking

/-- One row of the scored table, restricted to the columns
`add_selection_flags` reads. -/
structure RankRow where
  user_confidence : ℚ
  structural_reliability : ℚ
  score : ℚ
deriving DecidableEq

/-- The gate mask of `add_selection_flags`: a gate applies only when it is
set (`some`) and (for the two named columns) the column exists. -/
def passes (hasUC hasSR : Bool) (min_score min_user_conf min_structural : Option ℚ)
    (r : RankRow) : Bool :=
  (match min_user_conf with
   | some m => !hasUC || decide (m ≤ r.user_confidence)
   | none => true) &&
  (match min_structural with
   | some m => !hasSR || decide (m ≤ r.structural_reliability)
   | none => true) &&
  (match min_score with
   | some m => decide (m ≤ r.score)
   | none => true)

/-- `add_selection_flags` from ranking.py, returning the `selected` column
as a list of booleans aligned with the input rows.  `hasUC` / `hasSR` /
`hasScore` model whether the corresponding dataframe columns exist.  Rows
are sorted by score descending; pandas leaves the order of equal keys
unspecified, modelled here by a stable insertion sort. -/
def add_selection_flags (rows : List RankRow) (top_pct : ℚ)
    (min_score min_user_conf min_structural : Option ℚ)
    (hasUC hasSR hasScore : Bool) : List Bool :=
  if rows.isEmpty || !hasScore then rows.map (fun _ => false)
  else
    let indexed := rows.enum
    let candidates := indexed.filter
      (fun p => passes hasUC hasSR min_score min_user_conf min_structural p.2)
    if candidates.isEmpty then rows.map (fun _ => false)
    else
      let sorted := List.insertionSort (fun a b => b.2.score ≤ a.2.score) candidates
      let n_select : ℕ := (max 1 (rhez ((candidates.length : ℚ) * top_pct))).toNat
      let selected_idx := (sorted.take n_select).map (fun p => p.1)
      indexed.map (fun p => selected_idx.contains p.1)

end Ranking

/-! ## consumers/L1 (validation.py, processor.py) -/

namespace L1

open JValue

/-- `validate_l1` from consumers/L1/validation.py.  `now` is the wall-clock
time in seconds; `none` models an uncaught exception (non-numeric field).
Note the required-field list does NOT contain `"exchange"`. -/
def validate_l1 (now : ℚ) (data : List (String × JValue)) : Option Bool :=
  let required := ["symbol", "timestamp_utc_micros", "best_bid_price", "best_ask_price"]
  if required.any (fun f => (lookup data f).isNone) then some false
  else
    match pyFloat? (get1 data "best_bid_price"), pyFloat? (get1 data "best_ask_price") with
    | some bid, some ask =>
        if bid ≤ 0 || ask ≤ 0 || bid ≥ ask then some false
        else
          match get1 data "timestamp_utc_micros" with
          | .num t => some (decide (|now - t / 1000000| ≤ 300))
          | .bool b => some (decide (|now - (if b then 1 else 0) / 1000000| ≤ 300))
          | _ => none
    | _, _ => none

/-- The metrics dict built by `compute_l1_metrics`. -/
structure L1Metrics where
  symbol : JValue
  exchange : JValue
  best_bid_price : JValue
  best_ask_price : JValue
  mid_price : ℚ
  spread_bps : ℚ
  timestamp : JValue

/-- `compute_l1_metrics` from consumers/L1/processor.py.  Errors carry the
offending key (`KeyError`) or a conversion/zero-division tag; the claim of
interest is precisely that a missing `"exchange"` key raises. -/
def compute_l1_metrics (data : List (String × JValue)) : Except String L1Metrics := do
  let bidJ ← match lookup data "best_bid_price" with
    | some v => .ok v
    | none => .error "best_bid_price"
  let bid ← match pyFloat? bidJ with
    | some q => .ok q
    | none => .error "TypeError"
  let askJ ← match lookup data "best_ask_price" with
    | some v => .ok v
    | none => .error "best_ask_price"
  let ask ← match pyFloat? askJ with
    | some q => .ok q
    | none => .error "TypeError"
  let mid := (bid + ask) / 2
  if mid = 0 then .error "ZeroDivisionError"
  else
    let spread := (ask - bid) / mid
    let sym ← match lookup data "symbol" with
      | some v => .ok v
      | none => .error "symbol"
    let exch ← match lookup data "exchange" with
      | some v => .ok v
      | none => .error "exchange"
    let ts ← match lookup data "timestamp_utc_micros" with
      | some v => .ok v
      | none => .error "timestamp_utc_micros"
    .ok ⟨sym, exch, bidJ, askJ, mid, spread * 10000, ts⟩

end L1

/-! ## consumers/L2 (processor.py) -/

namespace L2

open JValue

/-- The depth dict built by `compute_depth_l2`. -/
structure L2Depth where
  symbol : JValue
  exchange : JValue
  bid_depth_usd : ℚ
  ask_depth_usd : ℚ
  total_depth_usd : ℚ
  timestamp_utc_micros : JValue

/-- The `for price, qty in levels` accumulation loop of `compute_depth_l2`:
adds `price*qty` for every level satisfying `keep price`; errors model a
failed unpack or float conversion. -/
def depthLoop (keep : ℚ → Bool) : List JValue → ℚ → Except String ℚ
  | [], acc => .ok acc
  | level :: rest, acc =>
      match level with
      | .arr [pJ, qJ] =>
          match pyFloat? pJ, pyFloat? qJ with
          | some p, some q =>
              depthLoop keep rest (if keep p then acc + p * q else acc)
          | _, _ => .error "TypeError"
      | _ => .error "ValueError"

/-- `compute_depth_l2` from consumers/L2/processor.py. -/
def compute_depth_l2 (data : List (String × JValue)) (pct : ℚ) :
    Except String L2Depth := do
  let bidsJ ← match lookup data "bids" with
    | some v => .ok v
    | none => .error "bids"
  let asksJ ← match lookup data "asks" with
    | some v => .ok v
    | none => .error "asks"
  let bids ← match bidsJ with
    | .arr l => .ok l
    | _ => .error "TypeError"
  let asks ← match asksJ with
    | .arr l => .ok l
    | _ => .error "TypeError"
  let bid0 ← match bids with
    | .arr (p :: _) :: _ => .ok p
    | _ => .error "IndexError"
  let best_bid ← match pyFloat? bid0 with
    | some q => .ok q
    | none => .error "TypeError"
  let ask0 ← match asks with
    | .arr (p :: _) :: _ => .ok p
    | _ => .error "IndexError"
  let best_ask ← match pyFloat? ask0 with
    | some q => .ok q
    | none => .error "TypeError"
  let bid_limit := best_bid * (1 - pct)
  let ask_limit := best_ask * (1 + pct)
  let bid_depth ← depthLoop (fun p => decide (bid_limit ≤ p)) bids 0
  let ask_depth ← depthLoop (fun p => decide (p ≤ ask_limit)) asks 0
  let sym ← match lookup data "symbol" with
    | some v => .ok v
    | none => .error "symbol"
  let exch ← match lookup data "exchange" with
    | some v => .ok v
    | none => .error "exchange"
  let ts ← match lookup data "timestamp_utc_micros" with
    | some v => .ok v
    | none => .error "timestamp_utc_micros"
  .ok ⟨sym, exch, bid_depth, ask_depth, bid_depth + ask_depth, ts⟩

/-- Build an L2 message from rational levels (used to state the claim). -/
def mkMsg (sym exch ts : JValue) (bids asks : List (ℚ × ℚ)) :
    List (String × JValue) :=
  [ ("symbol", sym), ("exchange", exch),
    ("timestamp_utc_micros", ts),
    ("bids", .arr (bids.map (fun l => .arr [.num l.1, .num l.2]))),
    ("asks", .arr (asks.map (fun l => .arr [.num l.1, .num l.2]))) ]

end L2

/-! ## llm_sentiment/sentiment/core (schema.py, composite_scorer.py) -/

namespace Sentiment

/-- `SentimentSignal` from schema.py (the timestamp plays no role in
scoring and is modelled as a rational epoch). -/
structure SentimentSignal where
  source : String
  symbol : String
  timestamp : ℚ
  score : ℚ
deriving DecidableEq

/-- One entry of the per-symbol result dict of `CompositeScorer.score`. -/
structure SymbolResult where
  sentiment_score : ℚ
  confidence : ℚ
  regime : String
deriving DecidableEq

/-- Deduplication keeping first occurrences (Python dict key insertion
order), with an accumulator of already-seen keys. -/
def dedupAux : List String → List String → List String
  | [], _ => []
  | x :: xs, seen =>
      if seen.contains x then dedupAux xs seen else x :: dedupAux xs (x :: seen)

/-- Deduplication keeping first occurrences. -/
def dedup (l : List String) : List String := dedupAux l []

/-- The symbols of `grouped` in insertion order (Python dict ordering). -/
def symbolsOf (signals : List SentimentSignal) : List String :=
  dedup (signals.map (·.symbol))

/-- The sources of `grouped[symbol]` in insertion order. -/
def sourcesOf (signals : List SentimentSignal) (symbol : String) : List String :=
  dedup ((signals.filter (fun s => s.symbol = symbol)).map (·.source))

/-- `grouped[symbol][source]`: that source's scores for the symbol, in
input order. -/
def scoresOf (signals : List SentimentSignal) (symbol source : String) : List ℚ :=
  (signals.filter (fun s => s.symbol = symbol && s.source = source)).map (·.score)

/-- The per-source accumulation loop body of `CompositeScorer.score`:
folds `(weighted_sum, confidence_sum)` over the symbol's sources, skipping
sources without a configured weight. -/
def accumSources (weights : List (String × ℚ)) (signals : List SentimentSignal)
    (symbol : String) (srcs : List String) (init : ℚ × ℚ) : ℚ × ℚ :=
  srcs.foldl
    (fun acc source =>
      match AssetRegistry.alistFind weights source with
      | none => acc
      | some weight =>
          let scores := scoresOf signals symbol source
          let avg := listMean scores
          let confidence := min ((scores.length : ℚ) / 10) 1
          (acc.1 + avg * weight * confidence, acc.2 + weight * confidence))
    init

/-- The per-symbol body of the loop in `CompositeScorer.score`. -/
def scoreSymbol (weights : List (String × ℚ)) (signals : List SentimentSignal)
    (symbol : String) : SymbolResult :=
  let srcs := sourcesOf signals symbol
  let total_weight := (weights.map (·.2)).sum
  let acc := accumSources weights signals symbol srcs (0, 0)
  let weighted_sum := acc.1
  let confidence_sum := acc.2
  if confidence_sum = 0 then ⟨0, 0, "unknown"⟩
  else
    let sentiment_score := max (-1) (min 1 (weighted_sum / confidence_sum))
    let confidence := max 0 (min 1 (confidence_sum / total_weight))
    let regime :=
      if srcs.contains "volatility" then
        let vol_avg := listMean (scoresOf signals symbol "volatility")
        if vol_avg > 0.20 then "risk_on"
        else if vol_avg < -0.20 then "risk_off"
        else "neutral"
      else "unknown"
    ⟨round4 sentiment_score, round4 confidence, regime⟩

/-- `CompositeScorer.score` from composite_scorer.py.  `weights` is the
cleaned `self.weights` mapping (non-negative, as the constructor
guarantees); the result is the per-symbol dict in insertion order. -/
def compositeScore (weights : List (String × ℚ)) (signals : List SentimentSignal) :
    List (String × SymbolResult) :=
  (symbolsOf signals).map (fun symbol => (symbol, scoreSymbol weights signals symbol))

/-- Spec-side term `avg·weight·confidence` for one source of one symbol
(0 when the source has no configured weight). -/
def srcTermW (weights : List (String × ℚ)) (signals : List SentimentSignal)
    (symbol source : String) : ℚ :=
  match AssetRegistry.alistFind weights source with
  | none => 0
  | some w =>
      let scores := scoresOf signals symbol source
      listMean scores * w * min ((scores.length : ℚ) / 10) 1

/-- Spec-side term `weight·confidence` for one source of one symbol. -/
def srcTermC (weights : List (String × ℚ)) (signals : List SentimentSignal)
    (symbol source : String) : ℚ :=
  match AssetRegistry.alistFind weights source with
  | none => 0
  | some w =>
      let scores := scoresOf signals symbol source
      w * min ((scores.length : ℚ) / 10) 1

/-- Spec-side `Σ(avg·weight·confidence)` over the symbol's sources. -/
def specWeightedSum (weights : List (String × ℚ)) (signals : List SentimentSignal)
    (symbol : String) : ℚ :=
  ((sourcesOf signals symbol).map (srcTermW weights signals symbol)).sum

/-- Spec-side `Σ(weight·confidence)` over the symbol's sources. -/
def specConfidenceSum (weights : List (String × ℚ)) (signals : List SentimentSignal)
    (symbol : String) : ℚ :=
  ((sourcesOf signals symbol).map (srcTermC weights signals symbol)).sum

end Sentiment

/-! ## Verification of the claims -/

section ClaimProofs

attribute [local semireducible] Rat.add Rat.mul Rat.sub Rat.inv Rat.ofScientific

/-- C5: `resolve_asset` maps `{"asset": "BTCUSDT"}`, `{"asset": "btc-usd"}`
and `{"asset": "BTC"}` to canonical key `"BTC"` with asset class crypto,
and returns an unresolved result (absent descriptor) for
`{"asset": "zx9"}`, whose token contains a digit and so is not covered by
the alphabetic stock-fallback rule. -/
theorem c5_resolve_asset_btc_variants_and_digit_token :
    AssetRegistry.resolve_asset [("asset", JValue.str "BTCUSDT")]
      = some ("BTC", some ⟨"BTC", "crypto", some "BTC-USD", some "BINANCE:BTCUSDT", none⟩) ∧
    AssetRegistry.resolve_asset [("asset", JValue.str "btc-usd")]
      = some ("BTC", some ⟨"BTC", "crypto", some "BTC-USD", some "BINANCE:BTCUSDT", none⟩) ∧
    AssetRegistry.resolve_asset [("asset", JValue.str "BTC")]
      = some ("BTC", some ⟨"BTC", "crypto", some "BTC-USD", some "BINANCE:BTCUSDT", none⟩) ∧
    AssetRegistry.resolve_asset [("asset", JValue.str "zx9")] = some ("ZX9", none) := by
  exact ⟨by decide, by decide, by decide, by decide⟩

/-- C6: the claim says `validate_l1` accepts a message only if it contains
an `"exchange"` field, but the required-field list in the code omits
`"exchange"`: a fresh, well-formed message with no `"exchange"` key is
accepted (first two conjuncts — the failing input).  The remaining checks
behave as claimed: a crossed book (bid=100, ask=99) is rejected, a fresh
bid=100/ask=101 message is accepted, and the same message 301 seconds old
is rejected. -/
theorem c6_validate_l1_exchange_not_required :
    L1.validate_l1 1000000
      [("symbol", JValue.str "BTCUSDT"),
       ("timestamp_utc_micros", JValue.num 1000000000000),
       ("best_bid_price", JValue.num 100),
       ("best_ask_price", JValue.num 101)] = some true ∧
    JValue.lookup
      [("symbol", JValue.str "BTCUSDT"),
       ("timestamp_utc_micros", JValue.num 1000000000000),
       ("best_bid_price", JValue.num 100),
       ("best_ask_price", JValue.num 101)] "exchange" = none ∧
    L1.validate_l1 1000000
      [("symbol", JValue.str "BTCUSDT"),
       ("exchange", JValue.str "BINANCE"),
       ("timestamp_utc_micros", JValue.num 1000000000000),
       ("best_bid_price", JValue.num 100),
       ("best_ask_price", JValue.num 99)] = some false ∧
    L1.validate_l1 1000000
      [("symbol", JValue.str "BTCUSDT"),
       ("exchange", JValue.str "BINANCE"),
       ("timestamp_utc_micros", JValue.num 1000000000000),
       ("best_bid_price", JValue.num 100),
       ("best_ask_price", JValue.num 101)] = some true ∧
    L1.validate_l1 1000301
      [("symbol", JValue.str "BTCUSDT"),
       ("exchange", JValue.str "BINANCE"),
       ("timestamp_utc_micros", JValue.num 1000000000000),
       ("best_bid_price", JValue.num 100),
       ("best_ask_price", JValue.num 101)] = some false := by
  exact ⟨by decide, by rfl, by decide, by decide, by decide⟩

/-- C7: there is an L1 message that passes `validate_l1` yet lacks the
`"exchange"` field, and on it `compute_l1_metrics` fails with an uncaught
key-lookup error (`KeyError: 'exchange'`) instead of the message being
dropped — being validated does not guarantee being processable. -/
theorem c7_validated_message_crashes_processor :
    L1.validate_l1 1000000
      [("symbol", JValue.str "ETHUSDT"),
       ("timestamp_utc_micros", JValue.num 1000000000000),
       ("best_bid_price", JValue.num 100),
       ("best_ask_price", JValue.num 101)] = some true ∧
    JValue.lookup
      [("symbol", JValue.str "ETHUSDT"),
       ("timestamp_utc_micros", JValue.num 1000000000000),
       ("best_bid_price", JValue.num 100),
       ("best_ask_price", JValue.num 101)] "exchange" = none ∧
    L1.compute_l1_metrics
      [("symbol", JValue.str "ETHUSDT"),
       ("timestamp_utc_micros", JValue.num 1000000000000),
       ("best_bid_price", JValue.num 100),
       ("best_ask_price", JValue.num 101)] = Except.error "exchange" := by
  exact ⟨by decide, by rfl, by rfl⟩

/-- C2 counterexample: the claim says the string `"40"` becomes 0.004, but
`_normalize_move_pct` maps it to 0.4 (`float("40") = 40 > 1`, so it is
divided by 100 once). -/
theorem c2_counterexample_forty_becomes_point_four :
    DataLoader.normalize_move_pct (JValue.str "40") = some (2/5) ∧ ((2:ℚ)/5) ≠ 1/250 := by
  exact ⟨by decide, by decide⟩

/-- C2 (amended): `_normalize_move_pct` interprets numeric values with
magnitude above 0.2 (in particular above 1.0) as percent and divides them
by 100, takes magnitudes at most 0.2 as already-decimal fractions, maps
the string `"40"` to 0.4 and `"0.4"` (equally `"0.4%"`) to 0.004, returns
`none` on `None` or unparseable input, and always returns a nonnegative
magnitude. -/
theorem c2_move_pct_normalization :
    (∀ q : ℚ, DataLoader.normalize_move_pct (JValue.num q)
        = some (if 1/5 < |q| then |q| / 100 else |q|)) ∧
    DataLoader.normalize_move_pct (JValue.str "40") = some (2/5) ∧
    DataLoader.normalize_move_pct (JValue.str "0.4") = some (1/250) ∧
    DataLoader.normalize_move_pct (JValue.str "0.4%") = some (1/250) ∧
    DataLoader.normalize_move_pct JValue.null = none ∧
    DataLoader.normalize_move_pct (JValue.str "abc") = none ∧
    (∀ x v, DataLoader.normalize_move_pct x = some v → 0 ≤ v) := by
  refine ⟨?_, by decide, by decide, by decide, by decide, by decide, ?_⟩
  · intro q
    simp only [DataLoader.normalize_move_pct, DataLoader.safe_float, pyFloat?]
    by_cases h1 : (1 : ℚ) < |q|
    · have h2 : (1/5 : ℚ) < |q| := lt_trans (by norm_num) h1
      rw [if_pos (show |q| > 1 from h1), if_pos h2]
    · by_cases h2 : (1/5 : ℚ) < |q|
      · rw [if_neg (show ¬ |q| > 1 from h1), if_pos (show |q| > 1/5 from h2), if_pos h2]
      · rw [if_neg (show ¬ |q| > 1 from h1), if_neg (show ¬ |q| > 1/5 from h2), if_neg h2]
  · intro x v h
    simp only [DataLoader.normalize_move_pct] at h
    cases hsf : DataLoader.safe_float x none with
    | none => rw [hsf] at h; exact absurd h (by simp)
    | some v0 =>
        rw [hsf] at h
        simp only at h
        split_ifs at h with h1 h2 <;> cases h <;> positivity

/-- C2 witness: the amended theorem applied at the concrete input −0.4
(a bare number): the stored value is the positive magnitude 0.4 / 100 =
0.004, and it is nonnegative. -/
theorem c2_move_pct_normalization_witness :
    DataLoader.normalize_move_pct (JValue.num (-(2/5))) = some (1/250) ∧ (0:ℚ) ≤ 1/250 := by
  exact ⟨by decide, c2_move_pct_normalization.2.2.2.2.2.2 (JValue.num (-(2/5))) (1/250) (by decide)⟩

set_option maxRecDepth 100000 in
/-- C9 counterexample: with all six sub-scores equal to 0.5, the source's
binary64 evaluation of `compute_entry_target_score` returns
(2^53 − 1)/2^54 = 0.49999999999999994, which is not exactly 0.5 (the
decimal weights 0.35, 0.30, 0.12, 0.06, 0.05 are not exactly
representable, and the rounded partial sums fall one unit in the last
place short of one half). -/
theorem c9_counterexample_float_result_below_half :
    EntryQuality.compute_entry_target_score_fp 0.5 0.5 0.5 0.5 0.5 0.5
      = 9007199254740991 / 18014398509481984 ∧
    (9007199254740991 : ℚ) / 18014398509481984 ≠ 1/2 := by
  exact ⟨by decide, by decide⟩

set_option maxRecDepth 100000 in
/-- C9 (amended): `compute_entry_target_score` is the weighted sum
`0.35·p_touch + 0.30·p_reach_target + 0.12·entry_precision +
0.06·target_precision + 0.12·move_realism + 0.05·liquidity` of the inputs
each first clamped to [0,1], with the result clamped to [0,1]; the weights
sum to 1, so in exact real arithmetic the score at six equal sub-scores
`q ∈ [0,1]` is exactly `q` (in particular 0.5 at 0.5), while the code's
float64 evaluation at all-0.5 returns (2^53 − 1)/2^54 =
0.49999999999999994. -/
theorem c9_entry_target_score_weighted_sum :
    (∀ p pr ep tp mr lq : ℚ,
      EntryQuality.compute_entry_target_score p pr ep tp mr lq
        = EntryQuality.norm01
            (0.35 * EntryQuality.norm01 p + 0.30 * EntryQuality.norm01 pr
              + 0.12 * EntryQuality.norm01 ep + 0.06 * EntryQuality.norm01 tp
              + 0.12 * EntryQuality.norm01 mr + 0.05 * EntryQuality.norm01 lq)) ∧
    ((0.35 : ℚ) + 0.30 + 0.12 + 0.06 + 0.12 + 0.05 = 1) ∧
    (∀ q : ℚ, 0 ≤ q → q ≤ 1 →
      EntryQuality.compute_entry_target_score q q q q q q = q) ∧
    EntryQuality.compute_entry_target_score 0.5 0.5 0.5 0.5 0.5 0.5 = 1/2 ∧
    EntryQuality.compute_entry_target_score_fp 0.5 0.5 0.5 0.5 0.5 0.5
      = 9007199254740991 / 18014398509481984 := by
  refine ⟨fun p pr ep tp mr lq => rfl, by norm_num, ?_, by decide, by decide⟩
  intro q h0 h1
  have hn : EntryQuality.norm01 q = q := by
    simp only [EntryQuality.norm01, clipQ]
    rw [max_eq_left h0, min_eq_left h1]
  simp only [EntryQuality.compute_entry_target_score, hn]
  have hs : (0.35 : ℚ) * q + 0.30 * q + 0.12 * q + 0.06 * q + 0.12 * q + 0.05 * q = q := by
    ring_nf
  rw [hs, hn]

/-- C9 witness: the amended theorem's equal-inputs identity applied at the
concrete sub-score 0.75. -/
theorem c9_entry_target_score_weighted_sum_witness :
    (0 : ℚ) ≤ 3/4 ∧ (3/4 : ℚ) ≤ 1 ∧
    EntryQuality.compute_entry_target_score (3/4) (3/4) (3/4) (3/4) (3/4) (3/4) = 3/4 := by
  exact ⟨by norm_num, by norm_num,
    c9_entry_target_score_weighted_sum.2.2.1 (3/4) (by norm_num) (by norm_num)⟩

theorem clipQ_eq_self {x lo hi : ℚ} (h0 : lo ≤ x) (h1 : x ≤ hi) : clipQ x lo hi = x := by
  rw [clipQ, max_eq_left h0, min_eq_left h1]

theorem clipQ_mem {x lo hi : ℚ} (h : lo ≤ hi) :
    lo ≤ clipQ x lo hi ∧ clipQ x lo hi ≤ hi :=
  ⟨le_min (le_max_right x lo) h, min_le_right _ _⟩

theorem reliability_label_low_iff (f : ℚ) :
    Scoring.reliability_label f = "low" ↔ f < 0.4 := by
  rw [Scoring.reliability_label]
  split_ifs with h1 h2 <;> simp_all

theorem reliability_label_moderate_iff (f : ℚ) :
    Scoring.reliability_label f = "moderate" ↔ 0.4 ≤ f ∧ f < 0.7 := by
  rw [Scoring.reliability_label]
  split_ifs with h1 h2
  · simp only [iff_false_intro (by decide : ¬("low" = "moderate"))]
    constructor
    · intro h; exact absurd h (by decide)
    · intro hc; linarith [hc.1]
  · simp only [not_lt] at h1
    exact ⟨fun _ => ⟨h1, h2⟩, fun _ => rfl⟩
  · simp only [not_lt] at h1 h2
    constructor
    · intro h; exact absurd h (by decide)
    · intro hc; linarith [hc.2]

theorem reliability_label_high_iff (f : ℚ) :
    Scoring.reliability_label f = "high" ↔ 0.7 ≤ f := by
  rw [Scoring.reliability_label]
  split_ifs with h1 h2
  · constructor
    · intro h; exact absurd h (by decide)
    · intro hc; linarith
  · constructor
    · intro h; exact absurd h (by decide)
    · intro hc; linarith
  · simp only [not_lt] at h2
    exact ⟨fun _ => h2, fun _ => rfl⟩

/-- C1: in every row produced by the prediction scorer,
`final_reliability_score = clamp(confidence_reliability_score ×
(0.7 + 0.3·entry_score), 0, 1)`; with `entry_score ∈ [0,1]` the final
score differs from the base score by at most 30% of the base score
proportionally; and the reliability label is `"low"` exactly when the
final score is below 0.4, `"moderate"` exactly when it is in [0.4, 0.7),
and `"high"` exactly when it is at least 0.7. -/
theorem c1_final_score_formula_and_labels (d : String) (uc tb fr ma m5 m10 es : ℚ) :
    (Scoring.score_prediction_core d uc tb fr ma m5 m10 es).final_reliability_score
      = clipQ ((Scoring.score_prediction_core d uc tb fr ma m5 m10 es).confidence_reliability_score
          * (0.7 + 0.3 * es)) 0 1 ∧
    ((Scoring.score_prediction_core d uc tb fr ma m5 m10 es).reliability = "low"
      ↔ (Scoring.score_prediction_core d uc tb fr ma m5 m10 es).final_reliability_score < 0.4) ∧
    ((Scoring.score_prediction_core d uc tb fr ma m5 m10 es).reliability = "moderate"
      ↔ 0.4 ≤ (Scoring.score_prediction_core d uc tb fr ma m5 m10 es).final_reliability_score
        ∧ (Scoring.score_prediction_core d uc tb fr ma m5 m10 es).final_reliability_score < 0.7) ∧
    ((Scoring.score_prediction_core d uc tb fr ma m5 m10 es).reliability = "high"
      ↔ 0.7 ≤ (Scoring.score_prediction_core d uc tb fr ma m5 m10 es).final_reliability_score) ∧
    (0 ≤ es → es ≤ 1 →
      |(Scoring.score_prediction_core d uc tb fr ma m5 m10 es).final_reliability_score
        - (Scoring.score_prediction_core d uc tb fr ma m5 m10 es).confidence_reliability_score|
        ≤ 0.3 * (Scoring.score_prediction_core d uc tb fr ma m5 m10 es).confidence_reliability_score) := by
  have hlabel : (Scoring.score_prediction_core d uc tb fr ma m5 m10 es).reliability
      = Scoring.reliability_label
          (Scoring.score_prediction_core d uc tb fr ma m5 m10 es).final_reliability_score := rfl
  refine ⟨rfl, ?_, ?_, ?_, ?_⟩
  · rw [hlabel]; exact reliability_label_low_iff _
  · rw [hlabel]; exact reliability_label_moderate_iff _
  · rw [hlabel]; exact reliability_label_high_iff _
  · intro h0 h1
    set cr := (Scoring.score_prediction_core d uc tb fr ma m5 m10 es).confidence_reliability_score with hcr
    have hcr0 : 0 ≤ cr := (clipQ_mem (by norm_num)).1
    have hcr1 : cr ≤ 1 := (clipQ_mem (by norm_num)).2
    have hf : (Scoring.score_prediction_core d uc tb fr ma m5 m10 es).final_reliability_score
        = clipQ (cr * (0.7 + 0.3 * es)) 0 1 := rfl
    have hp0 : 0 ≤ cr * (0.7 + 0.3 * es) := mul_nonneg hcr0 (by linarith)
    have hp1 : cr * (0.7 + 0.3 * es) ≤ 1 := by nlinarith
    rw [hf, clipQ_eq_self hp0 hp1]
    rw [abs_of_nonpos (by nlinarith)]
    nlinarith

set_option maxRecDepth 100000 in
/-- C1 witness: the formula and label claims applied to a concrete row
(user confidence 0.9, technical bias 1, fundamentals 1, momentum alignment
1, entry score 1): the base score is 0.855, the final score
0.855 × 1.0 = 0.855, labelled "high", and the deviation bound holds. -/
theorem c1_final_score_formula_and_labels_witness :
    (0 : ℚ) ≤ 1 ∧ (1 : ℚ) ≤ 1 ∧
    |(Scoring.score_prediction_core "BUY" 0.9 1 1 1 0 0 1).final_reliability_score
      - (Scoring.score_prediction_core "BUY" 0.9 1 1 1 0 0 1).confidence_reliability_score|
      ≤ 0.3 * (Scoring.score_prediction_core "BUY" 0.9 1 1 1 0 0 1).confidence_reliability_score ∧
    (Scoring.score_prediction_core "BUY" 0.9 1 1 1 0 0 1).reliability = "high" := by
  refine ⟨by norm_num, by norm_num,
    (c1_final_score_formula_and_labels "BUY" 0.9 1 1 1 0 0 1).2.2.2.2 (by norm_num) (by norm_num),
    ((c1_final_score_formula_and_labels "BUY" 0.9 1 1 1 0 0 1).2.2.2.1).mpr (by decide)⟩

theorem depthLoop_sum (keep : ℚ → Bool) (levels : List (ℚ × ℚ)) (acc : ℚ) :
    L2.depthLoop keep (levels.map (fun l => JValue.arr [JValue.num l.1, JValue.num l.2])) acc
      = Except.ok (acc + ((levels.filter (fun l => keep l.1)).map (fun l => l.1 * l.2)).sum) := by
  induction levels generalizing acc with
  | nil => simp [L2.depthLoop]
  | cons hd tl ih =>
      simp only [List.map_cons, L2.depthLoop, pyFloat?]
      by_cases hk : keep hd.1
      · rw [if_pos hk, ih]
        simp only [List.filter_cons, hk, if_true, List.map_cons, List.sum_cons]
        congr 1
        ring
      · rw [if_neg hk, ih]
        simp only [List.filter_cons, hk, if_false, Bool.false_eq_true]

theorem mkMsg_lookup_symbol (sym exch ts : JValue) (bids asks : List (ℚ × ℚ)) :
    JValue.lookup (L2.mkMsg sym exch ts bids asks) "symbol" = some sym := rfl

theorem mkMsg_lookup_exchange (sym exch ts : JValue) (bids asks : List (ℚ × ℚ)) :
    JValue.lookup (L2.mkMsg sym exch ts bids asks) "exchange" = some exch := rfl

theorem mkMsg_lookup_timestamp (sym exch ts : JValue) (bids asks : List (ℚ × ℚ)) :
    JValue.lookup (L2.mkMsg sym exch ts bids asks) "timestamp_utc_micros" = some ts := rfl

theorem mkMsg_lookup_bids (sym exch ts : JValue) (bids asks : List (ℚ × ℚ)) :
    JValue.lookup (L2.mkMsg sym exch ts bids asks) "bids"
      = some (JValue.arr (bids.map (fun l => JValue.arr [JValue.num l.1, JValue.num l.2]))) := rfl

theorem mkMsg_lookup_asks (sym exch ts : JValue) (bids asks : List (ℚ × ℚ)) :
    JValue.lookup (L2.mkMsg sym exch ts bids asks) "asks"
      = some (JValue.arr (asks.map (fun l => JValue.arr [JValue.num l.1, JValue.num l.2]))) := rfl

/-- C8: for every L2 message with nonempty bid and ask sides and every
band `pct`, `compute_depth_l2` returns bid depth `Σ price×qty` over bid
levels with price at or above `best_bid×(1−pct)`, ask depth `Σ price×qty`
over ask levels with price at or below `best_ask×(1+pct)`, and total
depth their sum; in particular for bids=[[100,2],[99,1]], asks=[[101,3]],
pct=0.01 it returns bid_depth=299.0, ask_depth=303.0,
total_depth=602.0. -/
theorem c8_compute_depth_l2_spec :
    (∀ (sym exch ts : JValue) (bhd : ℚ × ℚ) (btl : List (ℚ × ℚ))
        (ahd : ℚ × ℚ) (atl : List (ℚ × ℚ)) (pct : ℚ),
      L2.compute_depth_l2 (L2.mkMsg sym exch ts (bhd :: btl) (ahd :: atl)) pct
        = Except.ok
            ⟨sym, exch,
             (((bhd :: btl).filter (fun l => bhd.1 * (1 - pct) ≤ l.1)).map
                (fun l => l.1 * l.2)).sum,
             (((ahd :: atl).filter (fun l => l.1 ≤ ahd.1 * (1 + pct))).map
                (fun l => l.1 * l.2)).sum,
             (((bhd :: btl).filter (fun l => bhd.1 * (1 - pct) ≤ l.1)).map
                (fun l => l.1 * l.2)).sum
               + (((ahd :: atl).filter (fun l => l.1 ≤ ahd.1 * (1 + pct))).map
                  (fun l => l.1 * l.2)).sum,
             ts⟩) ∧
    L2.compute_depth_l2
        (L2.mkMsg (JValue.str "BTCUSDT") (JValue.str "BINANCE") (JValue.num 0)
          [(100, 2), (99, 1)] [(101, 3)]) (1/100)
      = Except.ok ⟨JValue.str "BTCUSDT", JValue.str "BINANCE", 299, 303, 602, JValue.num 0⟩ := by
  constructor
  · intro sym exch ts bhd btl ahd atl pct
    have hb := depthLoop_sum (fun p => decide (bhd.1 * (1 - pct) ≤ p)) (bhd :: btl) 0
    have ha := depthLoop_sum (fun p => decide (p ≤ ahd.1 * (1 + pct))) (ahd :: atl) 0
    simp only [List.map_cons] at hb ha
    simp only [L2.compute_depth_l2, mkMsg_lookup_bids, mkMsg_lookup_asks,
      mkMsg_lookup_symbol, mkMsg_lookup_exchange, mkMsg_lookup_timestamp,
      List.map_cons, pyFloat?, Except.instMonad, Except.bind, hb, ha, zero_add]
  · rfl

/-- C10: `load_predictions_json` fails with NotFound when the predictions
file is absent, and with InvalidInput when the selected top-level items
value is not an array (neither a bare array nor an object wrapping a
predictions array); a normalized row whose asset is empty or whose user
id is falsy is silently skipped (the loop continues on the remaining
items); a kept first row (index 0) without a truthy submission id
receives the generated id `str(user_id) + "-0"`; and on the concrete
input [well-formed record, record missing asset] the result is exactly
the well-formed record with submission id `"u1-0"`. -/
theorem c10_load_predictions_json_spec :
    (∀ now : String, DataLoader.load_predictions_json now none
        = Except.error DataLoader.LoadErr.notFound) ∧
    (∀ (now : String) (raw : JValue),
      (∀ l : List JValue, DataLoader.itemsOf raw ≠ JValue.arr l) →
      DataLoader.load_predictions_json now (some raw)
        = Except.error DataLoader.LoadErr.invalidInput) ∧
    (∀ (now : String) (i : ℕ) (o : List (String × JValue)) (rest : List JValue)
        (p : DataLoader.NormPred),
      DataLoader.normalize_prediction now o = some p →
      (p.asset = "" ∨ p.user_id.truthy = false) →
      DataLoader.processItems now i (JValue.obj o :: rest)
        = DataLoader.processItems now (i + 1) rest) ∧
    (∀ (now : String) (o : List (String × JValue)) (rest : List JValue)
        (p : DataLoader.NormPred),
      DataLoader.normalize_prediction now o = some p →
      p.asset ≠ "" → p.user_id.truthy = true → p.submission_id.truthy = false →
      DataLoader.processItems now 0 (JValue.obj o :: rest)
        = (DataLoader.processItems now 1 rest).map
            (fun l => ⟨p.user_id, JValue.str (PyStr.cat (pyStr p.user_id) "-0"),
                       p.timestamp, p.asset, p.direction, p.confidence,
                       p.horizon_hours, p.entry_price, p.move_pct⟩ :: l)) ∧
    DataLoader.load_predictions_json "T"
        (some (JValue.arr
          [JValue.obj [("user_id", JValue.str "u1"), ("asset", JValue.str "BTC"),
                       ("direction", JValue.str "BUY"), ("confidence", JValue.num (7/10))],
           JValue.obj [("user_id", JValue.str "u2"), ("direction", JValue.str "SELL")]]))
      = Except.ok
          [⟨JValue.str "u1", JValue.str "u1-0", JValue.str "T", "BTCUSDT", "BUY",
            7/10, 1, none, none⟩] := by
  refine ⟨fun now => rfl, ?_, ?_, ?_, ?_⟩
  · intro now raw h
    simp only [DataLoader.load_predictions_json]
  · intro now i o rest p hn hdrop
    have hcond : (decide (p.asset = "") || !p.user_id.truthy) = true := by
      rcases hdrop with h | h <;> simp [h]
    simp only [DataLoader.processItems, hn, hcond, if_true]
  · intro now o rest p hn ha hu hs
    have hcond : (decide (p.asset = "") || !p.user_id.truthy) = false := by
      simp [ha, hu]
    simp only [DataLoader.processItems, hn, hcond, Bool.false_eq_true, if_false, hs,
      Nat.cast_zero, Nat.zero_add]
    have hid : PyStr.cat (PyStr.cat (pyStr p.user_id) "-") (intToStr 0)
        = PyStr.cat (pyStr p.user_id) "-0" := by
      simp only [PyStr.cat, intToStr, natDigits, natDigitsAux]
      norm_num
    rw [hid]
    cases hrest : DataLoader.processItems now 1 rest with
    | ok l => rfl
    | error e => rfl
  · rfl

/-- C10 witness: the InvalidInput branch of the loader theorem applied at
the concrete non-array, non-wrapper top-level value `3`. -/
theorem c10_load_predictions_json_spec_witness :
    DataLoader.load_predictions_json "T" (some (JValue.num 3))
      = Except.error DataLoader.LoadErr.invalidInput := by
  exact c10_load_predictions_json_spec.2.1 "T" (JValue.num 3)
    (fun l h => JValue.noConfusion h)

theorem mem_dedupAux (a : String) : ∀ (l seen : List String),
    a ∈ Sentiment.dedupAux l seen ↔ a ∈ l ∧ a ∉ seen := by
  intro l
  induction l with
  | nil => intro seen; simp [Sentiment.dedupAux]
  | cons x xs ih =>
      intro seen
      simp only [Sentiment.dedupAux]
      by_cases hx : seen.contains x
      · rw [if_pos hx, ih]
        have hxs : x ∈ seen := by
          have := List.elem_eq_mem x seen
          rw [List.contains] at hx
          rw [this] at hx
          exact of_decide_eq_true hx
        constructor
        · rintro ⟨h1, h2⟩; exact ⟨List.mem_cons_of_mem x h1, h2⟩
        · rintro ⟨h1, h2⟩
          rcases List.mem_cons.mp h1 with rfl | h1
          · exact absurd hxs h2
          · exact ⟨h1, h2⟩
      · rw [if_neg hx]
        have hxs : x ∉ seen := by
          intro hc
          apply hx
          rw [List.contains, List.elem_eq_mem]
          exact decide_eq_true hc
        constructor
        · intro h
          rcases List.mem_cons.mp h with rfl | h
          · exact ⟨List.mem_cons_self a xs, hxs⟩
          · have := (ih (x :: seen)).mp h
            refine ⟨List.mem_cons_of_mem x this.1, fun hc => this.2 (List.mem_cons_of_mem x hc)⟩
        · rintro ⟨h1, h2⟩
          rcases List.mem_cons.mp h1 with rfl | h1
          · exact List.mem_cons_self a _
          · by_cases hax : a = x
            · subst hax; exact List.mem_cons_self a _
            · refine List.mem_cons_of_mem x ((ih (x :: seen)).mpr ⟨h1, ?_⟩)
              intro hc
              rcases List.mem_cons.mp hc with rfl | hc
              · exact hax rfl
              · exact h2 hc

theorem mem_dedup (a : String) (l : List String) :
    a ∈ Sentiment.dedup l ↔ a ∈ l := by
  rw [Sentiment.dedup, mem_dedupAux]
  simp

theorem alistFind_map_self {β : Type} (f : String → β) (l : List String) (s : String)
    (hs : s ∈ l) :
    AssetRegistry.alistFind (l.map (fun x => (x, f x))) s = some (f s) := by
  induction l with
  | nil => cases hs
  | cons x xs ih =>
      simp only [List.map_cons, AssetRegistry.alistFind]
      by_cases hx : x = s
      · subst hx; rw [if_pos rfl]
      · rw [if_neg hx]
        rcases List.mem_cons.mp hs with rfl | h
        · exact absurd rfl hx
        · exact ih h

theorem accumSources_eq (weights : List (String × ℚ)) (signals : List Sentiment.SentimentSignal)
    (symbol : String) : ∀ (srcs : List String) (init : ℚ × ℚ),
    Sentiment.accumSources weights signals symbol srcs init
      = (init.1 + ((srcs.map (Sentiment.srcTermW weights signals symbol)).sum),
         init.2 + ((srcs.map (Sentiment.srcTermC weights signals symbol)).sum)) := by
  intro srcs
  induction srcs with
  | nil => intro init; simp [Sentiment.accumSources]
  | cons x xs ih =>
      intro init
      simp only [Sentiment.accumSources, List.foldl_cons, List.map_cons, List.sum_cons] at ih ⊢
      cases hw : AssetRegistry.alistFind weights x with
      | none =>
          rw [ih]
          simp only [Sentiment.srcTermW, Sentiment.srcTermC, hw, Prod.mk.injEq]
          constructor <;> ring
      | some w =>
          rw [ih]
          simp only [Sentiment.srcTermW, Sentiment.srcTermC, hw, Prod.mk.injEq]
          constructor <;> ring

/-- C4 counterexample: with weights `{micros: 1}` and the single signal
(micros, BTC, score 0.12345), the claimed value — the clamped quotient
Σ(avg·weight·confidence)/Σ(weight·confidence) — is 0.12345, but
`CompositeScorer.score` returns `round(0.12345, 4) = 0.1234` for the
symbol's sentiment_score (the code rounds both output fields to 4 decimal
places, which the claim omits). -/
theorem c4_counterexample_rounding :
    AssetRegistry.alistFind
        (Sentiment.compositeScore [("micros", 1)] [⟨"micros", "BTC", 0, 12345/100000⟩]) "BTC"
      = some ⟨617/5000, 1/10, "unknown"⟩ ∧
    max (-1) (min 1 (((12345/100000 : ℚ) * 1 * (1/10)) / (1 * (1/10)))) = 12345/100000 ∧
    ((617 : ℚ)/5000) ≠ 12345/100000 := by
  exact ⟨by decide, by decide, by decide⟩

/-- C4 (amended): for every weights mapping and signal list and every
symbol appearing in the signals, `CompositeScorer.score` has an entry for
the symbol; when Σ(weight·confidence) over the symbol's sources is zero
the entry is (0.0, 0.0, "unknown"); otherwise its sentiment_score is the
weighted sentiment Σ(avg·weight·confidence)/Σ(weight·confidence) clamped
to [-1,1] and its confidence Σ(weight·confidence)/Σ(all configured
weights) clamped to [0,1] — each rounded to 4 decimal places — with
per-source confidence min(count/10, 1), and its regime is "risk_on" when
the volatility dimension's average score is > 0.20, "risk_off" when
< −0.20, "neutral" otherwise, and "unknown" when the volatility dimension
has no data for the symbol. -/
theorem c4_composite_score_spec (weights : List (String × ℚ))
    (signals : List Sentiment.SentimentSignal) (sym : String)
    (hsym : sym ∈ signals.map (fun s => s.symbol)) :
    ∃ r, AssetRegistry.alistFind (Sentiment.compositeScore weights signals) sym = some r ∧
      (Sentiment.specConfidenceSum weights signals sym = 0 → r = ⟨0, 0, "unknown"⟩) ∧
      (Sentiment.specConfidenceSum weights signals sym ≠ 0 →
        r.sentiment_score
          = round4 (max (-1) (min 1
              (Sentiment.specWeightedSum weights signals sym
                / Sentiment.specConfidenceSum weights signals sym))) ∧
        r.confidence
          = round4 (max 0 (min 1
              (Sentiment.specConfidenceSum weights signals sym / (weights.map (fun w => w.2)).sum))) ∧
        ((∃ sig ∈ signals, sig.symbol = sym ∧ sig.source = "volatility") →
          r.regime
            = (if listMean (Sentiment.scoresOf signals sym "volatility") > 0.20 then "risk_on"
               else if listMean (Sentiment.scoresOf signals sym "volatility") < -0.20 then "risk_off"
               else "neutral")) ∧
        (¬ (∃ sig ∈ signals, sig.symbol = sym ∧ sig.source = "volatility") →
          r.regime = "unknown")) := by
  have hmem : sym ∈ Sentiment.symbolsOf signals := by
    rw [Sentiment.symbolsOf, mem_dedup]
    exact hsym
  have hfind : AssetRegistry.alistFind (Sentiment.compositeScore weights signals) sym
      = some (Sentiment.scoreSymbol weights signals sym) := by
    rw [Sentiment.compositeScore]
    exact alistFind_map_self (Sentiment.scoreSymbol weights signals) _ sym hmem
  refine ⟨Sentiment.scoreSymbol weights signals sym, hfind, ?_, ?_⟩
  all_goals
    rw [Sentiment.scoreSymbol]
    rw [accumSources_eq]
    simp only [zero_add]
  · intro hz
    simp only [Sentiment.specConfidenceSum] at hz
    rw [if_pos hz]
  · intro hz
    simp only [Sentiment.specWeightedSum, Sentiment.specConfidenceSum] at hz ⊢
    rw [if_neg hz]
    have hvol : (Sentiment.sourcesOf signals sym).contains "volatility" = true
        ↔ (∃ sig ∈ signals, sig.symbol = sym ∧ sig.source = "volatility") := by
      rw [List.contains, List.elem_eq_mem, decide_eq_true_eq]
      rw [Sentiment.sourcesOf, mem_dedup]
      simp only [List.mem_map, List.mem_filter, decide_eq_true_eq]
      constructor
      · rintro ⟨sig, ⟨hmem1, hs⟩, hsrc⟩
        exact ⟨sig, hmem1, hs, hsrc⟩
      · rintro ⟨sig, hmem1, hs, hsrc⟩
        exact ⟨sig, ⟨hmem1, hs⟩, hsrc⟩
    refine ⟨rfl, rfl, ?_, ?_⟩
    · intro hex
      rw [if_pos (hvol.mpr hex)]
    · intro hnex
      rw [if_neg (fun hc => hnex (hvol.mp hc))]

/-- C4 witness: the amended theorem applied at weights `{volatility: 0.15}`
and the single signal (volatility, BTC, 0.25): the symbol has an entry and
its regime is "risk_on". -/
theorem c4_composite_score_spec_witness :
    ∃ r, AssetRegistry.alistFind
        (Sentiment.compositeScore [("volatility", 3/20)] [⟨"volatility", "BTC", 0, 1/4⟩]) "BTC"
      = some r ∧ r.regime = "risk_on" := by
  obtain ⟨r, hfind, hz, hnz⟩ :=
    c4_composite_score_spec [("volatility", 3/20)] [⟨"volatility", "BTC", 0, 1/4⟩] "BTC" (by decide)
  have h := hnz (by decide)
  refine ⟨r, hfind, ?_⟩
  rw [h.2.2.1 ⟨⟨"volatility", "BTC", 0, 1/4⟩, by decide, rfl, rfl⟩]
  rw [if_pos (by decide)]

theorem length_filter_enumFrom (p : Ranking.RankRow → Bool) :
    ∀ (k : ℕ) (rows : List Ranking.RankRow),
    ((List.enumFrom k rows).filter (fun e => p e.2)).length = (rows.filter p).length := by
  intro k rows
  induction rows generalizing k with
  | nil => rfl
  | cons r rs ih =>
      simp only [List.enumFrom, List.filter_cons]
      by_cases hp : p r
      · simp only [hp, if_true, List.length_cons, ih]
      · simp only [hp, Bool.false_eq_true, if_false, ih]

theorem fst_nodup_inj : ∀ (l : List (ℕ × Ranking.RankRow)),
    (l.map Prod.fst).Nodup → ∀ {i : ℕ} {r1 r2 : Ranking.RankRow},
    (i, r1) ∈ l → (i, r2) ∈ l → r1 = r2 := by
  intro l
  induction l with
  | nil => intro _ i r1 r2 h1; cases h1
  | cons hd tl ih =>
      obtain ⟨j, rj⟩ := hd
      intro hnd i r1 r2 h1 h2
      simp only [List.map_cons, List.nodup_cons] at hnd
      rcases List.mem_cons.mp h1 with heq1 | h1
      · injection heq1 with hi1 hr1
        rcases List.mem_cons.mp h2 with heq2 | h2
        · injection heq2 with hi2 hr2
          rw [hr1, hr2]
        · exfalso
          have hm : i ∈ List.map Prod.fst tl := by
            simpa using List.mem_map_of_mem Prod.fst h2
          rw [hi1] at hm
          exact hnd.1 hm
      · rcases List.mem_cons.mp h2 with heq2 | h2
        · injection heq2 with hi2 hr2
          exfalso
          have hm : i ∈ List.map Prod.fst tl := by
            simpa using List.mem_map_of_mem Prod.fst h1
          rw [hi2] at hm
          exact hnd.1 hm
        · exact ih hnd.2 h1 h2

theorem zip_flags_eq (g : ℕ × Ranking.RankRow → Bool) :
    ∀ (k : ℕ) (rows : List Ranking.RankRow),
    rows.zip ((List.enumFrom k rows).map g)
      = (List.enumFrom k rows).map (fun p => (p.2, g p)) := by
  intro k rows
  induction rows generalizing k with
  | nil => rfl
  | cons r rs ih => simp only [List.enumFrom, List.map_cons, List.zip_cons_cons, ih]

theorem count_true_map (g : ℕ × Ranking.RankRow → Bool) :
    ∀ (l : List (ℕ × Ranking.RankRow)), ((l.map g).count true) = l.countP g := by
  intro l
  induction l with
  | nil => rfl
  | cons hd tl ih =>
      simp only [List.map_cons, List.count_cons, List.countP_cons, ih]
      by_cases hg : g hd
      · simp [hg]
      · simp [hg]

theorem countP_contains_of_nodup (sel R : List ℕ) (hsub : ∀ i ∈ sel, i ∈ R)
    (hns : sel.Nodup) (hnR : R.Nodup) :
    R.countP (fun i => sel.contains i) = sel.length := by
  rw [List.countP_eq_length_filter]
  have hperm : List.Perm (R.filter (fun i => sel.contains i)) sel := by
    rw [List.perm_ext_iff_of_nodup (hnR.filter _) hns]
    intro a
    simp only [List.mem_filter, List.elem_eq_mem, decide_eq_true_eq]
    constructor
    · rintro ⟨_, h⟩; exact h
    · intro h; exact ⟨hsub a h, h⟩
  exact hperm.length_eq

theorem rhez_le_int (q : ℚ) (c : ℤ) (h : q ≤ (c : ℚ)) : rhez q ≤ c := by
  have hfl : ⌊q⌋ ≤ c := by
    have := Int.floor_le_floor h
    rwa [Int.floor_intCast] at this
  rw [rhez]
  split_ifs with h1 h2 h3
  · exact hfl
  · rcases lt_or_eq_of_le hfl with hlt | heq
    · omega
    · exfalso
      have : q - (⌊q⌋ : ℚ) ≤ 0 := by
        rw [heq]; linarith
      linarith
  · exact hfl
  · rcases lt_or_eq_of_le hfl with hlt | heq
    · omega
    · exfalso
      have : q - (⌊q⌋ : ℚ) ≤ 0 := by
        rw [heq]; linarith
      linarith

theorem zip_map_false_snd (rows : List Ranking.RankRow) :
    ∀ pr ∈ rows.zip (rows.map (fun _ => false)), pr.2 = false := by
  induction rows with
  | nil => intro pr hpr; cases hpr
  | cons r rs ih =>
      intro pr hpr
      rcases List.mem_cons.mp hpr with rfl | hpr
      · rfl
      · exact ih pr hpr

theorem add_selection_flags_nonempty (rows : List Ranking.RankRow) (pct : ℚ)
    (ms muc msr : Option ℚ) (hUC hSR : Bool)
    (hne : rows.isEmpty = false)
    (hcne : ((rows.enum.filter (fun p => Ranking.passes hUC hSR ms muc msr p.2)).isEmpty) = false) :
    Ranking.add_selection_flags rows pct ms muc msr hUC hSR true
      = rows.enum.map (fun p =>
          (((List.insertionSort (fun a b => b.2.score ≤ a.2.score)
              (rows.enum.filter (fun q => Ranking.passes hUC hSR ms muc msr q.2))).take
                ((max 1 (rhez
                  (((rows.enum.filter (fun q => Ranking.passes hUC hSR ms muc msr q.2)).length : ℚ)
                    * pct))).toNat)).map (fun q => q.1)).contains p.1) := by
  rw [Ranking.add_selection_flags]
  rw [if_neg (by rw [hne]; simp)]
  rw [if_neg (by rw [hcne]; simp)]

theorem enum_fst_nodup (rows : List Ranking.RankRow) :
    (rows.enum.map Prod.fst).Nodup := by
  rw [List.enum_map_fst]
  exact List.nodup_range _

theorem candidates_fst_nodup (rows : List Ranking.RankRow) (p : ℕ × Ranking.RankRow → Bool) :
    ((rows.enum.filter p).map Prod.fst).Nodup :=
  ((List.filter_sublist _).map Prod.fst).nodup (enum_fst_nodup rows)

theorem sorted_fst_perm (cands : List (ℕ × Ranking.RankRow)) :
    List.Perm ((List.insertionSort (fun a b => b.2.score ≤ a.2.score) cands).map Prod.fst)
      (cands.map Prod.fst) :=
  (List.perm_insertionSort _ cands).map Prod.fst

theorem mem_take_map_fst (cands : List (ℕ × Ranking.RankRow)) (n : ℕ) {i : ℕ}
    (hi : i ∈ ((List.insertionSort (fun a b => b.2.score ≤ a.2.score) cands).take n).map
        (fun q => q.1)) :
    ∃ ri, (i, ri) ∈ List.insertionSort (fun a b => b.2.score ≤ a.2.score) cands
        ∧ (i, ri) ∈ ((List.insertionSort (fun a b => b.2.score ≤ a.2.score) cands).take n)
        ∧ (i, ri) ∈ cands := by
  obtain ⟨⟨i', ri⟩, hmem, hfst⟩ := List.mem_map.mp hi
  cases hfst
  refine ⟨ri, List.mem_of_mem_take hmem, hmem, ?_⟩
  exact (List.perm_insertionSort _ cands).mem_iff.mp (List.mem_of_mem_take hmem)

theorem ranking_selected_passes (rows : List Ranking.RankRow) (pct : ℚ)
    (ms muc msr : Option ℚ) (hUC hSR hScore : Bool) :
    ∀ pr ∈ rows.zip (Ranking.add_selection_flags rows pct ms muc msr hUC hSR hScore),
      pr.2 = true → Ranking.passes hUC hSR ms muc msr pr.1 = true := by
  intro pr hpr htrue
  by_cases h1 : (rows.isEmpty || !hScore) = true
  · rw [Ranking.add_selection_flags, if_pos h1] at hpr
    exact absurd (zip_map_false_snd rows pr hpr) (by rw [htrue]; simp)
  · by_cases h2 : ((rows.enum.filter (fun p => Ranking.passes hUC hSR ms muc msr p.2)).isEmpty) = true
    · rw [Ranking.add_selection_flags, if_neg h1, if_pos h2] at hpr
      exact absurd (zip_map_false_snd rows pr hpr) (by rw [htrue]; simp)
    · have hsc : hScore = true := by
        cases hScore with
        | false => exact absurd (by simp : (rows.isEmpty || !false) = true) h1
        | true => rfl
      subst hsc
      rw [add_selection_flags_nonempty rows pct ms muc msr hUC hSR
        (by simpa using h1) (by simpa using h2)] at hpr
      rw [show rows.enum = List.enumFrom 0 rows from rfl, zip_flags_eq] at hpr
      obtain ⟨⟨i, ri⟩, hmem, heq⟩ := List.mem_map.mp hpr
      rw [← heq] at htrue ⊢
      simp only at htrue ⊢
      have hi : i ∈ ((List.insertionSort (fun a b => b.2.score ≤ a.2.score)
          (rows.enum.filter (fun q => Ranking.passes hUC hSR ms muc msr q.2))).take
            ((max 1 (rhez
              (((rows.enum.filter (fun q => Ranking.passes hUC hSR ms muc msr q.2)).length : ℚ)
                * pct))).toNat)).map (fun q => q.1) := by
        rw [List.contains, List.elem_eq_mem] at htrue
        exact of_decide_eq_true htrue
      obtain ⟨ri', _, _, hcand⟩ := mem_take_map_fst _ _ hi
      have hmem' : (i, ri') ∈ rows.enum := (List.mem_filter.mp hcand).1
      have hps : Ranking.passes hUC hSR ms muc msr ri' = true := by
        simpa using (List.mem_filter.mp hcand).2
      have : ri' = ri := fst_nodup_inj rows.enum (enum_fst_nodup rows) hmem' hmem
      rwa [this] at hps

theorem ranking_no_pass (rows : List Ranking.RankRow) (pct : ℚ)
    (ms muc msr : Option ℚ) (hUC hSR hScore : Bool)
    (hall : ∀ r ∈ rows, Ranking.passes hUC hSR ms muc msr r = false) :
    Ranking.add_selection_flags rows pct ms muc msr hUC hSR hScore
      = rows.map (fun _ => false) := by
  rw [Ranking.add_selection_flags]
  by_cases h1 : (rows.isEmpty || !hScore) = true
  · rw [if_pos h1]
  · rw [if_neg h1]
    have hcand : (rows.enum.filter (fun p => Ranking.passes hUC hSR ms muc msr p.2)) = [] := by
      rw [List.filter_eq_nil_iff]
      intro q hq
      have hq2 : q.2 ∈ rows := by
        have := List.mem_map_of_mem Prod.snd hq
        rwa [List.enum_map_snd] at this
      simp [hall q.2 hq2]
    rw [if_pos (by rw [hcand]; rfl)]

theorem count_selected_flags (rows : List Ranking.RankRow)
    (cands : List (ℕ × Ranking.RankRow)) (n : ℕ)
    (hsubl : List.Sublist cands rows.enum) :
    ((rows.enum.map (fun p =>
        (((List.insertionSort (fun a b => b.2.score ≤ a.2.score) cands).take n).map
          (fun q => q.1)).contains p.1)).count true)
      = min n cands.length := by
  have hnodupR : (rows.enum.map Prod.fst).Nodup := enum_fst_nodup rows
  have hnodupfst : (cands.map Prod.fst).Nodup := (hsubl.map Prod.fst).nodup hnodupR
  have hpermfst := sorted_fst_perm cands
  have hnodupsorted :
      ((List.insertionSort (fun a b => b.2.score ≤ a.2.score) cands).map Prod.fst).Nodup :=
    hpermfst.nodup_iff.mpr hnodupfst
  have hmapeq : (((List.insertionSort (fun a b => b.2.score ≤ a.2.score) cands).take n).map
        (fun q => q.1))
      = ((List.insertionSort (fun a b => b.2.score ≤ a.2.score) cands).map Prod.fst).take n := by
    rw [List.map_take]
  have hselnodup : ((((List.insertionSort (fun a b => b.2.score ≤ a.2.score) cands).take n).map
      (fun q => q.1))).Nodup := by
    rw [hmapeq]
    exact (List.take_sublist n _).nodup hnodupsorted
  have hsub : ∀ i ∈ (((List.insertionSort (fun a b => b.2.score ≤ a.2.score) cands).take n).map
      (fun q => q.1)), i ∈ rows.enum.map Prod.fst := by
    intro i hi
    obtain ⟨ri, _, _, hcand⟩ := mem_take_map_fst cands n hi
    exact List.mem_map_of_mem Prod.fst (hsubl.mem hcand)
  rw [count_true_map]
  have hstep : rows.enum.countP (fun p =>
      ((((List.insertionSort (fun a b => b.2.score ≤ a.2.score) cands).take n).map
        (fun q => q.1))).contains p.1)
      = (rows.enum.map Prod.fst).countP (fun i =>
          ((((List.insertionSort (fun a b => b.2.score ≤ a.2.score) cands).take n).map
            (fun q => q.1))).contains i) := by
    rw [List.countP_map]
    rfl
  rw [hstep, countP_contains_of_nodup _ _ hsub hselnodup hnodupR]
  rw [hmapeq, List.length_take, List.length_map]
  rw [(List.perm_insertionSort _ cands).length_eq]

theorem ranking_count (rows : List Ranking.RankRow) (pct : ℚ)
    (ms muc msr : Option ℚ) (hUC hSR : Bool)
    (hex : ∃ r ∈ rows, Ranking.passes hUC hSR ms muc msr r = true)
    (hp1 : pct ≤ 1) :
    (Ranking.add_selection_flags rows pct ms muc msr hUC hSR true).count true
      = (max 1 (rhez
          (((rows.filter (Ranking.passes hUC hSR ms muc msr)).length : ℚ) * pct))).toNat := by
  obtain ⟨r0, hr0, hps0⟩ := hex
  have hne : rows.isEmpty = false := by
    cases rows with
    | nil => cases hr0
    | cons a l => rfl
  have hq0 : ∃ q, q ∈ rows.enum.filter (fun p => Ranking.passes hUC hSR ms muc msr p.2) := by
    have hmem : r0 ∈ rows.enum.map Prod.snd := by
      rw [List.enum_map_snd]; exact hr0
    obtain ⟨q, hq, hq2⟩ := List.mem_map.mp hmem
    refine ⟨q, List.mem_filter.mpr ⟨hq, ?_⟩⟩
    rw [hq2]
    simpa using hps0
  have hcne : ((rows.enum.filter (fun p => Ranking.passes hUC hSR ms muc msr p.2)).isEmpty)
      = false := by
    obtain ⟨q, hq⟩ := hq0
    cases hfil : rows.enum.filter (fun p => Ranking.passes hUC hSR ms muc msr p.2) with
    | nil => rw [hfil] at hq; cases hq
    | cons a l => rfl
  rw [add_selection_flags_nonempty rows pct ms muc msr hUC hSR hne hcne]
  rw [count_selected_flags rows _ _ (List.filter_sublist _)]
  have hlen : (rows.enum.filter (fun q => Ranking.passes hUC hSR ms muc msr q.2)).length
      = (rows.filter (Ranking.passes hUC hSR ms muc msr)).length := by
    have := length_filter_enumFrom (Ranking.passes hUC hSR ms muc msr) 0 rows
    simpa [List.enum] using this
  rw [hlen]
  have hcpos : 0 < (rows.filter (Ranking.passes hUC hSR ms muc msr)).length := by
    obtain ⟨q, hq⟩ := hq0
    have : (rows.enum.filter (fun p => Ranking.passes hUC hSR ms muc msr p.2)).length ≠ 0 := by
      intro hzero
      rw [List.length_eq_zero] at hzero
      rw [hzero] at hq
      cases hq
    omega
  set c : ℕ := (rows.filter (Ranking.passes hUC hSR ms muc msr)).length with hc
  have hrle : rhez ((c : ℚ) * pct) ≤ (c : ℤ) := by
    apply rhez_le_int
    calc (c : ℚ) * pct ≤ (c : ℚ) * 1 := by
          apply mul_le_mul_of_nonneg_left hp1
          exact_mod_cast Nat.zero_le c
      _ = (c : ℚ) := mul_one _
  omega

theorem ranking_dominance (rows : List Ranking.RankRow) (pct : ℚ)
    (ms muc msr : Option ℚ) (hUC hSR hScore : Bool) :
    ∀ pr ∈ rows.zip (Ranking.add_selection_flags rows pct ms muc msr hUC hSR hScore),
    ∀ qr ∈ rows.zip (Ranking.add_selection_flags rows pct ms muc msr hUC hSR hScore),
      pr.2 = true → Ranking.passes hUC hSR ms muc msr qr.1 = true → qr.2 = false →
      qr.1.score ≤ pr.1.score := by
  intro pr hpr qr hqr htrue hqpass hqfalse
  by_cases h1 : (rows.isEmpty || !hScore) = true
  · rw [Ranking.add_selection_flags, if_pos h1] at hpr
    exact absurd (zip_map_false_snd rows pr hpr) (by rw [htrue]; simp)
  · by_cases h2 : ((rows.enum.filter (fun p => Ranking.passes hUC hSR ms muc msr p.2)).isEmpty) = true
    · rw [Ranking.add_selection_flags, if_neg h1, if_pos h2] at hpr
      exact absurd (zip_map_false_snd rows pr hpr) (by rw [htrue]; simp)
    · have hsc : hScore = true := by
        cases hScore with
        | false => exact absurd (by simp : (rows.isEmpty || !false) = true) h1
        | true => rfl
      subst hsc
      rw [add_selection_flags_nonempty rows pct ms muc msr hUC hSR
        (by simpa using h1) (by simpa using h2)] at hpr hqr
      rw [show rows.enum = List.enumFrom 0 rows from rfl, zip_flags_eq] at hpr hqr
      obtain ⟨⟨i, ri⟩, hmemi, heqi⟩ := List.mem_map.mp hpr
      obtain ⟨⟨j, rj⟩, hmemj, heqj⟩ := List.mem_map.mp hqr
      rw [← heqi] at htrue ⊢
      rw [← heqj] at hqpass hqfalse ⊢
      simp only at htrue hqpass hqfalse ⊢
      have hi : i ∈ ((List.insertionSort (fun a b => b.2.score ≤ a.2.score)
          (rows.enum.filter (fun q => Ranking.passes hUC hSR ms muc msr q.2))).take
            ((max 1 (rhez
              (((rows.enum.filter (fun q => Ranking.passes hUC hSR ms muc msr q.2)).length : ℚ)
                * pct))).toNat)).map (fun q => q.1) := by
        rw [List.contains, List.elem_eq_mem] at htrue
        exact of_decide_eq_true htrue
      obtain ⟨ri', hsorted_i, htake_i, hcand_i⟩ := mem_take_map_fst _ _ hi
      have hri : ri' = ri :=
        fst_nodup_inj rows.enum (enum_fst_nodup rows)
          (List.mem_filter.mp hcand_i).1 hmemi
      have hcand_j : (j, rj) ∈ rows.enum.filter
          (fun q => Ranking.passes hUC hSR ms muc msr q.2) :=
        List.mem_filter.mpr ⟨hmemj, by simpa using hqpass⟩
      have hsorted_j : (j, rj) ∈ List.insertionSort (fun a b => b.2.score ≤ a.2.score)
          (rows.enum.filter (fun q => Ranking.passes hUC hSR ms muc msr q.2)) :=
        (List.perm_insertionSort _ _).mem_iff.mpr hcand_j
      have hnotake_j : (j, rj) ∉ ((List.insertionSort (fun a b => b.2.score ≤ a.2.score)
          (rows.enum.filter (fun q => Ranking.passes hUC hSR ms muc msr q.2))).take
            ((max 1 (rhez
              (((rows.enum.filter (fun q => Ranking.passes hUC hSR ms muc msr q.2)).length : ℚ)
                * pct))).toNat)) := by
        intro hc
        have hjsel : j ∈ ((List.insertionSort (fun a b => b.2.score ≤ a.2.score)
            (rows.enum.filter (fun q => Ranking.passes hUC hSR ms muc msr q.2))).take
              ((max 1 (rhez
                (((rows.enum.filter (fun q => Ranking.passes hUC hSR ms muc msr q.2)).length : ℚ)
                  * pct))).toNat)).map (fun q => q.1) :=
          List.mem_map_of_mem (fun q => q.1) hc
        have hct : (((List.insertionSort (fun a b => b.2.score ≤ a.2.score)
            (rows.enum.filter (fun q => Ranking.passes hUC hSR ms muc msr q.2))).take
              ((max 1 (rhez
                (((rows.enum.filter (fun q => Ranking.passes hUC hSR ms muc msr q.2)).length : ℚ)
                  * pct))).toNat)).map (fun q => q.1)).contains j = true := by
          rw [List.contains, List.elem_eq_mem]
          exact decide_eq_true hjsel
        have hqf2 : (((List.insertionSort (fun a b => b.2.score ≤ a.2.score)
            (rows.enum.filter (fun q => Ranking.passes hUC hSR ms muc msr q.2))).take
              ((max 1 (rhez
                (((rows.enum.filter (fun q => Ranking.passes hUC hSR ms muc msr q.2)).length : ℚ)
                  * pct))).toNat)).map (fun q => q.1)).contains j = false := hqfalse
        rw [hct] at hqf2
        cases hqf2
      have hdrop_j : (j, rj) ∈ ((List.insertionSort (fun a b => b.2.score ≤ a.2.score)
          (rows.enum.filter (fun q => Ranking.passes hUC hSR ms muc msr q.2))).drop
            ((max 1 (rhez
              (((rows.enum.filter (fun q => Ranking.passes hUC hSR ms muc msr q.2)).length : ℚ)
                * pct))).toNat)) := by
        have := hsorted_j
        rw [← List.take_append_drop
            ((max 1 (rhez
              (((rows.enum.filter (fun q => Ranking.passes hUC hSR ms muc msr q.2)).length : ℚ)
                * pct))).toNat)
            (List.insertionSort (fun a b => b.2.score ≤ a.2.score)
              (rows.enum.filter (fun q => Ranking.passes hUC hSR ms muc msr q.2)))] at this
        rcases List.mem_append.mp this with hc | hc
        · exact absurd hc hnotake_j
        · exact hc
      haveI : IsTotal (ℕ × Ranking.RankRow) (fun a b => b.2.score ≤ a.2.score) :=
        ⟨fun a b => le_total b.2.score a.2.score⟩
      haveI : IsTrans (ℕ × Ranking.RankRow) (fun a b => b.2.score ≤ a.2.score) :=
        ⟨fun _ _ _ hab hbc => le_trans hbc hab⟩
      have hsorted := List.sorted_insertionSort (fun (a b : ℕ × Ranking.RankRow) =>
        b.2.score ≤ a.2.score)
        (rows.enum.filter (fun q => Ranking.passes hUC hSR ms muc msr q.2))
      rw [List.Sorted, ← List.take_append_drop
          ((max 1 (rhez
            (((rows.enum.filter (fun q => Ranking.passes hUC hSR ms muc msr q.2)).length : ℚ)
              * pct))).toNat)
          (List.insertionSort (fun a b => b.2.score ≤ a.2.score)
            (rows.enum.filter (fun q => Ranking.passes hUC hSR ms muc msr q.2)))] at hsorted
      have hrel := (List.pairwise_append.mp hsorted).2.2 _ htake_i _ hdrop_j
      rw [← hri]
      exact hrel

set_option maxRecDepth 1000000 in
/-- C3: rows failing an active gate are never selected; when no rows pass
the gates no row is selected; when some row passes (and the score column
exists, `top_pct ≤ 1`), exactly `max(1, round(candidate_count × top_pct))`
rows are selected; every selected row's score is at least every
unselected candidate's score (the selected rows are the top rows by the
score column); and on 10 rows with `top_pct = 0.30`, the default gates
and all rows passing, exactly the 3 highest-scoring rows are selected. -/
theorem c3_add_selection_flags_spec (rows : List Ranking.RankRow) (pct : ℚ)
    (ms muc msr : Option ℚ) (hUC hSR hScore : Bool) :
    (∀ pr ∈ rows.zip (Ranking.add_selection_flags rows pct ms muc msr hUC hSR hScore),
      pr.2 = true → Ranking.passes hUC hSR ms muc msr pr.1 = true) ∧
    ((∀ r ∈ rows, Ranking.passes hUC hSR ms muc msr r = false) →
      Ranking.add_selection_flags rows pct ms muc msr hUC hSR hScore
        = rows.map (fun _ => false)) ∧
    (hScore = true → (∃ r ∈ rows, Ranking.passes hUC hSR ms muc msr r = true) →
      pct ≤ 1 →
      (Ranking.add_selection_flags rows pct ms muc msr hUC hSR hScore).count true
        = (max 1 (rhez
            (((rows.filter (Ranking.passes hUC hSR ms muc msr)).length : ℚ) * pct))).toNat) ∧
    (∀ pr ∈ rows.zip (Ranking.add_selection_flags rows pct ms muc msr hUC hSR hScore),
     ∀ qr ∈ rows.zip (Ranking.add_selection_flags rows pct ms muc msr hUC hSR hScore),
      pr.2 = true → Ranking.passes hUC hSR ms muc msr qr.1 = true → qr.2 = false →
      qr.1.score ≤ pr.1.score) ∧
    Ranking.add_selection_flags
        [⟨8/10, 6/10, 1/10⟩, ⟨8/10, 6/10, 9/10⟩, ⟨8/10, 6/10, 3/10⟩, ⟨8/10, 6/10, 8/10⟩,
         ⟨8/10, 6/10, 5/10⟩, ⟨8/10, 6/10, 2/10⟩, ⟨8/10, 6/10, 7/10⟩, ⟨8/10, 6/10, 4/10⟩,
         ⟨8/10, 6/10, 6/10⟩, ⟨8/10, 6/10, 95/100⟩] (30/100)
        none (some (7/10)) (some (55/100)) true true true
      = [false, true, false, true, false, false, false, false, false, true] := by
  refine ⟨ranking_selected_passes rows pct ms muc msr hUC hSR hScore,
    ranking_no_pass rows pct ms muc msr hUC hSR hScore, ?_,
    ranking_dominance rows pct ms muc msr hUC hSR hScore, by decide⟩
  intro hsc hex hp1
  subst hsc
  exact ranking_count rows pct ms muc msr hUC hSR hex hp1

set_option maxRecDepth 1000000 in
/-- C3 witness: the exact-count part of the selection theorem applied to
the concrete 10-row table with `top_pct = 0.30` and all rows passing the
default gates: round(10 × 0.30) = 3 rows are selected. -/
theorem c3_add_selection_flags_spec_witness :
    (Ranking.add_selection_flags
        [⟨8/10, 6/10, 1/10⟩, ⟨8/10, 6/10, 9/10⟩, ⟨8/10, 6/10, 3/10⟩, ⟨8/10, 6/10, 8/10⟩,
         ⟨8/10, 6/10, 5/10⟩, ⟨8/10, 6/10, 2/10⟩, ⟨8/10, 6/10, 7/10⟩, ⟨8/10, 6/10, 4/10⟩,
         ⟨8/10, 6/10, 6/10⟩, ⟨8/10, 6/10, 95/100⟩] (30/100)
        none (some (7/10)) (some (55/100)) true true true).count true
      = (max 1 (rhez
          (((([⟨8/10, 6/10, 1/10⟩, ⟨8/10, 6/10, 9/10⟩, ⟨8/10, 6/10, 3/10⟩, ⟨8/10, 6/10, 8/10⟩,
              ⟨8/10, 6/10, 5/10⟩, ⟨8/10, 6/10, 2/10⟩, ⟨8/10, 6/10, 7/10⟩, ⟨8/10, 6/10, 4/10⟩,
              ⟨8/10, 6/10, 6/10⟩, ⟨8/10, 6/10, 95/100⟩] : List Ranking.RankRow).filter
                (Ranking.passes true true none (some (7/10)) (some (55/100)))).length : ℚ)
            * (30/100)))).toNat ∧
    (max 1 (rhez ((10 : ℚ) * (30/100)))).toNat = 3 := by
  refine ⟨(c3_add_selection_flags_spec _ (30/100) none (some (7/10)) (some (55/100))
      true true true).2.2.1 rfl ⟨⟨8/10, 6/10, 1/10⟩, by decide, by decide⟩ (by norm_num), ?_⟩
  decide

end ClaimProofs
